import Mathlib

/-! # peerflix: the HTTP streaming gateway of `index.js`

A shallow embedding of `src/index.js`: `createServer` (the `onready` file
selector and the `request` handler), the two listeners of the flow controller
and `parseBlocklist`, with the properties of the routing, range handling,
listings, CORS preflight, swarm calls and blocklist lines.

Conventions of the embedding

* JavaScript strings are `String`; `s.slice(1)` is `slice1`.
* A JavaScript number is `JSNumber`: `NaN`, the two infinities, or the exact
  mathematical value of the numeral as a rational.  The rounding of a numeral
  to an IEEE double is not modelled: a numeral whose value is an integer below
  `2^53`, which covers every array index, is exact in both; a numeral that a
  double would round keeps its exact value here.
* A run of the request listener ends a response (`Outcome.ended`) or throws
  (`Outcome.threw`); `onready` returns `Except.error` when it throws.
* The collaborators that are not part of `index.js` (`range-parser`, the
  `mime` lookup, `JSON.stringify`) are fields of `Env`.
* The regular expression of `parseBlocklist` is a list of terms run by a
  backtracking matcher with continuations, in the order of priority of
  ECMAScript.  Characters are code points; a character outside the BMP is two
  code units for JavaScript, which the classes of the pattern treat alike.
-/

namespace Peerflix

/-! ## JavaScript primitives used by the handler -/

/-- The value of a JavaScript number, kept exact. -/
inductive JSNumber where
  | nan
  | posInf
  | negInf
  | fin (q : ℚ)
  deriving DecidableEq

/-- The decimal digit `d` (for `d < 10`) as a character. -/
def digitChar (d : Nat) : Char := Char.ofNat (48 + d)

/-- Decimal digits of `n`, most significant first; `fuel` bounds the number of digits. -/
def natDigits : Nat → Nat → List Char
  | 0, _ => []
  | fuel + 1, n => if n < 10 then [digitChar n] else natDigits fuel (n / 10) ++ [digitChar (n % 10)]

/-- The text of `'' + n` for a non-negative integer `n` (an array index, a file count). -/
def natToString (n : Nat) : String := String.mk (natDigits (n + 1) n)

/-- The text of `'' + n` for an integer `n`. -/
def intToString : Int → String
  | Int.ofNat n => natToString n
  | Int.negSucc n => "-" ++ natToString (n + 1)

/-- The text of `s.slice(1)`: the string without its first character. -/
def slice1 (s : String) : String := String.mk (s.data.drop 1)

/-- The value of a decimal digit character. -/
def decDigit? (c : Char) : Option Nat :=
  if 48 ≤ c.toNat ∧ c.toNat ≤ 57 then some (c.toNat - 48) else none

/-- The value of a hexadecimal digit character. -/
def hexDigit? (c : Char) : Option Nat :=
  if 48 ≤ c.toNat ∧ c.toNat ≤ 57 then some (c.toNat - 48)
  else if 97 ≤ c.toNat ∧ c.toNat ≤ 102 then some (c.toNat - 87)
  else if 65 ≤ c.toNat ∧ c.toNat ≤ 70 then some (c.toNat - 55)
  else none

/-- The digit of `c` in the given radix (2, 8, 10 or 16). -/
def radixDigit? (radix : Nat) (c : Char) : Option Nat :=
  match hexDigit? c with
  | some d => if d < radix then some d else none
  | none => none

/-- Reads a run of digits of the radix, accumulating the value; `none` at a foreign character. -/
def digitsValue? (radix : Nat) : List Char → Nat → Option Nat
  | [], acc => some acc
  | c :: cs, acc =>
    match radixDigit? radix c with
    | some d => digitsValue? radix cs (acc * radix + d)
    | none => none

/-- Splits off the longest prefix of decimal digits. -/
def spanDigits : List Char → List Char × List Char
  | [] => ([], [])
  | c :: cs =>
    if (decDigit? c).isSome then ((spanDigits cs).1.cons c, (spanDigits cs).2) else ([], c :: cs)

/-- The characters `StrWhiteSpaceChar` of ECMAScript (white space and line terminators). -/
def isStrWhiteSpace (c : Char) : Bool :=
  let n := c.toNat
  (9 ≤ n && n ≤ 13) || n == 32 || n == 160 || n == 5760 || (8192 ≤ n && n ≤ 8202) ||
    n == 8232 || n == 8233 || n == 8239 || n == 8287 || n == 12288 || n == 65279

/-- Removes leading and trailing `StrWhiteSpaceChar`s. -/
def trimWhiteSpace (cs : List Char) : List Char :=
  ((cs.dropWhile isStrWhiteSpace).reverse.dropWhile isStrWhiteSpace).reverse

/-- The value `m * 10 ^ e` as a rational. -/
def scale10 (m : Nat) (e : Int) : ℚ :=
  match e with
  | Int.ofNat k => ((m * 10 ^ k : Nat) : ℚ)
  | Int.negSucc k => mkRat (m : Int) (10 ^ (k + 1))

/-- The `ExponentPart` of a decimal literal: empty, or `e`/`E`, an optional sign and digits. -/
def exponent? : List Char → Option Int
  | [] => some 0
  | c :: cs =>
    if c = 'e' ∨ c = 'E' then
      match cs with
      | [] => none
      | s :: ds =>
        if s = '+' then
          (if ds = [] then none else (digitsValue? 10 ds 0).map Int.ofNat)
        else if s = '-' then
          (if ds = [] then none else (digitsValue? 10 ds 0).map (fun n => - Int.ofNat n))
        else (digitsValue? 10 (s :: ds) 0).map Int.ofNat
    else none

/-- The value of a `StrUnsignedDecimalLiteral` other than `Infinity`; `none` when the text is
not one. -/
def unsignedDecimal? (cs : List Char) : Option ℚ :=
  let ip := (spanDigits cs).1
  let r1 := (spanDigits cs).2
  match r1 with
  | '.' :: r2 =>
    let fp := (spanDigits r2).1
    let r3 := (spanDigits r2).2
    if ip = [] ∧ fp = [] then none
    else
      match digitsValue? 10 (ip ++ fp) 0, exponent? r3 with
      | some m, some e => some (scale10 m (e - fp.length))
      | _, _ => none
  | _ =>
    if ip = [] then none
    else
      match digitsValue? 10 ip 0, exponent? r1 with
      | some m, some e => some (scale10 m e)
      | _, _ => none

/-- The value of a `StrDecimalLiteral`: an optional sign, then `Infinity` or a decimal literal. -/
def strDecimalLiteral (cs : List Char) : JSNumber :=
  let infinity := "Infinity".data
  match cs with
  | '+' :: r =>
    if r = infinity then JSNumber.posInf
    else match unsignedDecimal? r with
      | some q => JSNumber.fin q
      | none => JSNumber.nan
  | '-' :: r =>
    if r = infinity then JSNumber.negInf
    else match unsignedDecimal? r with
      | some q => JSNumber.fin (-q)
      | none => JSNumber.nan
  | r =>
    if r = infinity then JSNumber.posInf
    else match unsignedDecimal? r with
      | some q => JSNumber.fin q
      | none => JSNumber.nan

/-- The value of a non-empty run of digits in the radix, `NaN` otherwise. -/
def nonDecimalLiteral (radix : Nat) (ds : List Char) : JSNumber :=
  if ds = [] then JSNumber.nan
  else match digitsValue? radix ds 0 with
    | some n => JSNumber.fin (n : ℚ)
    | none => JSNumber.nan

/-- The number `Number(s)` of a string (ECMAScript `StringToNumber`): white space is trimmed,
the empty text is `0`, then a binary, octal or hexadecimal integer literal or a signed decimal
literal; anything else is `NaN`.  The value is the exact value of the literal: where
`Number` rounds to a double (`1e-400` to `0`, `0.99999999999999999999` to `1`, `1e400` to
`Infinity`) this function keeps the unrounded rational, so it agrees with `Number` on `NaN`,
on the sign, and on every literal whose value is an integer below `2^53`. -/
def toNumber (s : String) : JSNumber :=
  match trimWhiteSpace s.data with
  | [] => JSNumber.fin 0
  | '0' :: 'x' :: ds => nonDecimalLiteral 16 ds
  | '0' :: 'X' :: ds => nonDecimalLiteral 16 ds
  | '0' :: 'o' :: ds => nonDecimalLiteral 8 ds
  | '0' :: 'O' :: ds => nonDecimalLiteral 8 ds
  | '0' :: 'b' :: ds => nonDecimalLiteral 2 ds
  | '0' :: 'B' :: ds => nonDecimalLiteral 2 ds
  | cs => strDecimalLiteral cs

/-- The test `isNaN(i)`. -/
def JSNumber.isNaN : JSNumber → Bool
  | JSNumber.nan => true
  | _ => false

/-- The test `i >= n` for a number `i` and an array length `n` (false for `NaN`). -/
def JSNumber.geNat : JSNumber → Nat → Bool
  | JSNumber.nan, _ => false
  | JSNumber.posInf, _ => true
  | JSNumber.negInf, _ => false
  | JSNumber.fin q, n => decide ((n : ℚ) ≤ q)

/-- The element `xs[i]` of an array for a number `i`: the element at a non-negative integer
inside the array, `undefined` (`none`) for every other number. -/
def arrayGet {α : Type} (xs : List α) : JSNumber → Option α
  | JSNumber.fin q => if q.den = 1 ∧ 0 ≤ q.num then xs[q.num.toNat]? else none
  | _ => none

/-- JavaScript truthiness of an optional string: `undefined` and `''` are falsy. -/
def truthyStr : Option String → Bool
  | some s => s ≠ ""
  | none => false

/-- The exceptions the code can raise: all of them are `TypeError`s. -/
inductive JSError where
  | typeError
  deriving DecidableEq

/-! ## Data model -/

/-- A file object of the engine.  `ref` is the identity of the object (two references are
`===` exactly when their `ref` agrees); `name`, `path` and `length` are its properties. -/
structure FileEntry where
  ref : Nat
  name : String
  path : String
  length : Nat
  deriving DecidableEq

/-- A parsed byte range `{start, end}`. -/
structure ByteRange where
  start : Int
  stop : Int
  deriving DecidableEq

/-- What `range-parser` returns: a negative code (`-1` unsatisfiable, `-2` malformed) or an
array of ranges carrying the unit as its `type`. -/
inductive RangeResult where
  | code (n : Int)
  | ranges (type : String) (rs : List ByteRange)
  deriving DecidableEq

/-- The value of `result[0]`: the first range of an array, `undefined` for a number. -/
def RangeResult.first : RangeResult → Option ByteRange
  | RangeResult.code _ => none
  | RangeResult.ranges _ rs => rs.head?

/-- The part of `e.swarm` read by `/.json`; the two speeds are the values of
`parseInt(e.swarm.downloadSpeed(), 10)` and `parseInt(e.swarm.uploadSpeed(), 10)`. -/
structure Swarm where
  wires : List Bool
  downloaded : Nat
  uploaded : Nat
  downloadSpeed : Int
  uploadSpeed : Int

/-- The engine `e`: its file array, the references it was asked to `select()`, its swarm. -/
structure Engine where
  files : List FileEntry
  selected : List Nat
  swarm : Swarm

/-- The options `opts` read by `createServer`.  `index` is `some n` when `opts.index` is the
(integer) number `n` and `none` when it is `undefined`; `type`, `filter` and `sort` are `none`
when the option is absent.  `filter` and `sort` are the callbacks as `Array.prototype.filter`
and `Array.prototype.sort` use them: the truth value of `filter(file)`, the number
`sort(a, b)`. -/
structure Opts where
  index : Option Int
  type : Option (String → Option String)
  filter : Option (FileEntry → Bool)
  sort : Option (FileEntry → FileEntry → Int)

/-- One element of `files` in the `/.json` object. -/
structure ListingEntry where
  name : String
  url : String
  length : Nat
  deriving DecidableEq

/-- The object `swarmStats` that `/.json` serialises. -/
structure SwarmStats where
  totalLength : Nat
  downloaded : Nat
  uploaded : Nat
  downloadSpeed : Int
  uploadSpeed : Int
  totalPeers : Nat
  activePeers : Nat
  files : List ListingEntry
  deriving DecidableEq

/-- The collaborators outside `index.js`: the `range-parser` package, `mime.getType` (`none` is
its `null`) and `JSON.stringify(_, null, '  ')`. -/
structure Env where
  rangeParser : Nat → String → RangeResult
  mimeGetType : String → Option String
  stringify : SwarmStats → String

/-- The state shared by the closures of `createServer`: the engine, the options, the variable
`index` (`none` while it is not a number) and the property `server.index`. -/
structure Server where
  e : Engine
  opts : Opts
  index : Option Int
  serverIndex : Option FileEntry

/-- The request headers the handler reads. -/
structure Headers where
  host : Option String
  origin : Option String
  accessControlRequestHeaders : Option String
  range : Option String
  deriving DecidableEq

/-- An incoming request: its method, `url.parse(request.url).pathname` and its headers. -/
structure Request where
  method : String
  pathname : String
  headers : Headers
  deriving DecidableEq

/-- A value handed to `response.setHeader`. -/
inductive HeaderValue where
  | str (s : String)
  | num (n : Int)
  | null
  deriving DecidableEq

/-- What ends the response: `response.end()`, `response.end(text)` or
`pump(file.createReadStream(range), response)`. -/
inductive Body where
  | empty
  | text (s : String)
  | stream (file : FileEntry) (range : Option ByteRange)
  deriving DecidableEq

/-- A response: its status code, the headers in the order they were set, and its body. -/
structure Response where
  statusCode : Nat
  headers : List (String × HeaderValue)
  body : Body
  deriving DecidableEq

/-- How a run of the request listener finishes: the response it ended, or the exception it
threw. -/
inductive Outcome where
  | ended (r : Response)
  | threw (err : JSError)
  deriving DecidableEq

/-- A fresh response object: status 200, no header. -/
def Response.fresh : Response := { statusCode := 200, headers := [], body := Body.empty }

/-- The call `response.setHeader(name, value)` with a defined value. -/
def Response.setHeader (r : Response) (name : String) (v : HeaderValue) : Response :=
  { r with headers := r.headers ++ [(name, v)] }

/-- The value of a response header, `none` when it was not set. -/
def Response.header (r : Response) (name : String) : Option HeaderValue :=
  (r.headers.find? (fun h => h.1 = name)).map Prod.snd

/-! ## The ready handler -/

/-- The step of `e.files.reduce`: `a.length > b.length ? a : b`. -/
def longer (a b : FileEntry) : FileEntry := if a.length > b.length then a else b

/-- The call `xs.reduce(f)` without an initial value; `none` is the `TypeError` of an empty
array. -/
def reduce1 {α : Type} (f : α → α → α) : List α → Option α
  | [] => none
  | x :: xs => some (xs.foldl f x)

/-- The call `files.indexOf(x)`: the first position holding the same object, `-1` if none. -/
def indexOfRef (x : FileEntry) : List FileEntry → Nat → Int
  | [], _ => -1
  | f :: fs, i => if f.ref = x.ref then (i : Int) else indexOfRef x fs (i + 1)

/-- The element `xs[i]` for an integer `i`. -/
def arrayGetInt {α : Type} (xs : List α) (i : Int) : Option α :=
  match i with
  | Int.ofNat n => xs[n]?
  | Int.negSucc _ => none

/-- Inserts `a` into a list ordered by the comparator, before the first element it does not
follow. -/
def orderedInsert (cmp : FileEntry → FileEntry → Int) (a : FileEntry) : List FileEntry → List FileEntry
  | [] => [a]
  | b :: l => if cmp a b ≤ 0 then a :: b :: l else b :: orderedInsert cmp a l

/-- The call `files.sort(cmp)`: the stable sort by the comparator, which is the result
ECMAScript specifies for every consistent comparator. -/
def arraySort (cmp : FileEntry → FileEntry → Int) (l : List FileEntry) : List FileEntry :=
  l.foldr (orderedInsert cmp) []

/-- The function `onready` of `createServer`. -/
def onready (sv : Server) : Except JSError Server :=
  let index? : Option Int :=
    match sv.index with
    | some n => some n
    | none =>
      match reduce1 longer sv.e.files with
      | none => none
      | some best => some (indexOfRef best sv.e.files 0)
  match index? with
  | none => Except.error JSError.typeError
  | some index =>
    match arrayGetInt sv.e.files index with
    | none => Except.error JSError.typeError
    | some file =>
      Except.ok
        { e := { sv.e with
                 selected := sv.e.selected ++ [file.ref]
                 files := match sv.opts.sort with
                   | some cmp => arraySort cmp sv.e.files
                   | none => sv.e.files }
          opts := sv.opts
          index := some index
          serverIndex := some file }

/-- The server as `createServer` leaves it before the engine is ready. -/
def createServer (e : Engine) (opts : Opts) : Server :=
  { e := e, opts := opts, index := opts.index, serverIndex := none }

/-! ## The request handler -/

/-- The call `xs.map(f)` for a callback reading the element and its position; `i` is the
position of the first element. -/
def mapIndexed {α β : Type} (f : α → Nat → β) : List α → Nat → List β
  | [], _ => []
  | a :: as, i => f a i :: mapIndexed f as (i + 1)

/-- The function `truthy`: it accepts every file. -/
def truthy : FileEntry → Bool := fun _ => true

/-- The predicate `filter`: `opts.filter || truthy`. -/
def Server.filter (sv : Server) : FileEntry → Bool :=
  match sv.opts.filter with
  | some p => p
  | none => truthy

/-- The function `getType`: `opts.type || mime.getType.bind(mime)`. -/
def Server.getType (env : Env) (sv : Server) : String → Option String :=
  match sv.opts.type with
  | some f => f
  | none => env.mimeGetType

/-- The text `'http://' + host + '/' + i`. -/
def fileUrl (host : String) (i : Nat) : String := "http://" ++ host ++ "/" ++ natToString i

/-- The lines `toEntry(file, i)` of the playlist. -/
def playlistEntry (host : String) (file : FileEntry) (i : Nat) : String :=
  "#EXTINF:-1," ++ file.path ++ "\n" ++ fileUrl host i

/-- The function `toPlaylist`. -/
def toPlaylist (sv : Server) (host : String) : String :=
  "#EXTM3U\n" ++ String.intercalate "\n" (mapIndexed (playlistEntry host) (sv.e.files.filter sv.filter) 0)

/-- The object `toEntry(file, i)` of the JSON listing. -/
def jsonEntry (host : String) (file : FileEntry) (i : Nat) : ListingEntry :=
  { name := file.name, url := fileUrl host i, length := file.length }

/-- The object `swarmStats` built by `toJSON`. -/
def swarmStats (sv : Server) (host : String) : SwarmStats :=
  { totalLength := sv.e.files.foldl (fun prevFileLength currFile => prevFileLength + currFile.length) 0
    downloaded := sv.e.swarm.downloaded
    uploaded := sv.e.swarm.uploaded
    downloadSpeed := sv.e.swarm.downloadSpeed
    uploadSpeed := sv.e.swarm.uploadSpeed
    totalPeers := sv.e.swarm.wires.length
    activePeers := (sv.e.swarm.wires.filter (fun peerChoking => !peerChoking)).length
    files := mapIndexed (jsonEntry host) (sv.e.files.filter sv.filter) 0 }

/-- The function `toJSON`. -/
def toJSON (env : Env) (sv : Server) (host : String) : String :=
  env.stringify (swarmStats sv host)

/-- The text of `'/' + index` for the variable `index`. -/
def indexPath : Option Int → String
  | some n => "/" ++ intToString n
  | none => "/undefined"

/-- The loop `e.files.forEach(function (file, i) {...})` that rewrites `u.pathname` to
`'/' + i` when its tail is the name of file `i`; `i` is the position of the first file. -/
def nameRewrite : List FileEntry → Nat → String → String
  | [], _, p => p
  | file :: rest, i, p =>
    nameRewrite rest (i + 1) (if slice1 p = file.name then "/" ++ natToString i else p)

/-- The response ended with status 404 and no body. -/
def notFound (r : Response) : Response := { r with statusCode := 404, body := Body.empty }

/-- The last part of the handler, from `const file = e.files[i]`: `file` is `none` when
`e.files[i]` is `undefined`, and reading a property of it throws. -/
def serveFile (env : Env) (sv : Server) (request : Request) (r : Response) :
    Option FileEntry → Outcome
  | none => Outcome.threw JSError.typeError
  | some file =>
    let range : Option ByteRange :=
      if truthyStr request.headers.range then
        (env.rangeParser file.length (request.headers.range.getD "")).first
      else none
    let r1 := r.setHeader "Accept-Ranges" (HeaderValue.str "bytes")
    let r2 := r1.setHeader "Content-Type"
      (match sv.getType env file.name with
       | some t => HeaderValue.str t
       | none => HeaderValue.null)
    let r3 := r2.setHeader "transferMode.dlna.org" (HeaderValue.str "Streaming")
    let r4 := r3.setHeader "contentFeatures.dlna.org"
      (HeaderValue.str "DLNA.ORG_OP=01;DLNA.ORG_CI=0;DLNA.ORG_FLAGS=01700000000000000000000000000000")
    match range with
    | none =>
      let r5 := r4.setHeader "Content-Length" (HeaderValue.num file.length)
      if request.method = "HEAD" then Outcome.ended { r5 with body := Body.empty }
      else Outcome.ended { r5 with body := Body.stream file none }
    | some range =>
      let r5 := { r4 with statusCode := 206 }
      let r6 := r5.setHeader "Content-Length" (HeaderValue.num (range.stop - range.start + 1))
      let r7 := r6.setHeader "Content-Range"
        (HeaderValue.str ("bytes " ++ intToString range.start ++ "-" ++ intToString range.stop ++
          "/" ++ natToString file.length))
      if request.method = "HEAD" then Outcome.ended { r7 with body := Body.empty }
      else Outcome.ended { r7 with body := Body.stream file (some range) }

/-- The answer to a CORS preflight.  `setHeader` throws on the `undefined` value of a missing
`Origin` header. -/
def preflight (request : Request) (requested : String) : Outcome :=
  match request.headers.origin with
  | none => Outcome.threw JSError.typeError
  | some origin =>
    Outcome.ended
      ((((Response.fresh.setHeader "Access-Control-Allow-Origin" (HeaderValue.str origin)).setHeader
        "Access-Control-Allow-Methods" (HeaderValue.str "POST, GET, OPTIONS")).setHeader
        "Access-Control-Allow-Headers" (HeaderValue.str requested)).setHeader
        "Access-Control-Max-Age" (HeaderValue.str "1728000"))

/-- The constant `host`: `request.headers.host || 'localhost'`. -/
def hostOf (request : Request) : String :=
  if truthyStr request.headers.host then request.headers.host.getD "" else "localhost"

/-- The response after `if (request.headers.origin) response.setHeader(...)`. -/
def reflectOrigin (request : Request) : Response :=
  if truthyStr request.headers.origin then
    Response.fresh.setHeader "Access-Control-Allow-Origin"
      (HeaderValue.str (request.headers.origin.getD ""))
  else Response.fresh

/-- The statement `if (u.pathname === '/') u.pathname = '/' + index`. -/
def rootRewrite (sv : Server) (pathname : String) : String :=
  if pathname = "/" then indexPath sv.index else pathname

/-- The number `i` of the handler: `Number(u.pathname.slice(1))` after the loop over the
file names. -/
def fileIndex (sv : Server) (pathname : String) : JSNumber :=
  toNumber (slice1 (nameRewrite sv.e.files 0 pathname))

/-- The listener of `server.on('request', ...)`: the response it ends, or the exception it
throws. -/
def handler (env : Env) (sv : Server) (request : Request) : Outcome :=
  let host := hostOf request
  if request.method = "OPTIONS" ∧ truthyStr request.headers.accessControlRequestHeaders then
    preflight request (request.headers.accessControlRequestHeaders.getD "")
  else
    let r := reflectOrigin request
    let pathname := rootRewrite sv request.pathname
    if pathname = "/favicon.ico" then Outcome.ended (notFound r)
    else if pathname = "/.json" then
      let json := toJSON env sv host
      Outcome.ended
        { ((r.setHeader "Content-Type" (HeaderValue.str "application/json; charset=utf-8")).setHeader
            "Content-Length" (HeaderValue.num json.utf8ByteSize)) with body := Body.text json }
    else if pathname = "/.m3u" then
      let playlist := toPlaylist sv host
      Outcome.ended
        { ((r.setHeader "Content-Type" (HeaderValue.str "application/x-mpegurl; charset=utf-8")).setHeader
            "Content-Length" (HeaderValue.num playlist.utf8ByteSize)) with body := Body.text playlist }
    else
      let i := fileIndex sv pathname
      if i.isNaN ∨ i.geNat sv.e.files.length then Outcome.ended (notFound r)
      else serveFile env sv request r (arrayGet sv.e.files i)

/-- The handler together with the state it leaves: the listener assigns neither `index` nor
`server.index` and calls no method of the engine but `createReadStream`, which the body
records. -/
def onRequest (env : Env) (sv : Server) (request : Request) : Server × Outcome :=
  (sv, handler env sv request)

/-! ## The `range-parser` package, for concrete runs -/

/-- The call `parseInt(text, 10)`: leading white space, an optional sign, then the longest run
of digits; `none` is `NaN`. -/
def parseInt10 (cs : List Char) : Option Int :=
  match cs.dropWhile isStrWhiteSpace with
  | '-' :: r =>
    if (spanDigits r).1 = [] then none
    else (digitsValue? 10 (spanDigits r).1 0).map (fun n => - Int.ofNat n)
  | '+' :: r =>
    if (spanDigits r).1 = [] then none
    else (digitsValue? 10 (spanDigits r).1 0).map Int.ofNat
  | r =>
    if (spanDigits r).1 = [] then none
    else (digitsValue? 10 (spanDigits r).1 0).map Int.ofNat

/-- The call `text.split(sep)` for a one-character separator. -/
def splitChar (sep : Char) : List Char → List (List Char)
  | [] => [[]]
  | c :: cs =>
    if c = sep then [] :: splitChar sep cs
    else
      match splitChar sep cs with
      | [] => [[c]]
      | h :: t => (c :: h) :: t

/-- The text before and after the first `=`; `none` when `indexOf('=')` is `-1`. -/
def splitAtEq : List Char → Option (List Char × List Char)
  | [] => none
  | c :: cs =>
    if c = '=' then some ([], cs)
    else
      match splitAtEq cs with
      | some (a, b) => some (c :: a, b)
      | none => none

/-- The body of the loop of `range-parser` for one item of the list: the range it pushes, or
`none` when it skips the item as invalid or unsatisfiable. -/
def parseRangeItem (size : Nat) (item : List Char) : Option ByteRange :=
  let range := splitChar '-' item
  let start0 : Option Int := (range[0]?).bind parseInt10
  let end0 : Option Int := (range[1]?).bind parseInt10
  let start1 : Option Int :=
    match start0 with
    | none => end0.map (fun e => (size : Int) - e)
    | some s => some s
  let end1 : Option Int :=
    match start0, end0 with
    | none, _ => some ((size : Int) - 1)
    | some _, none => some ((size : Int) - 1)
    | some _, some e => some e
  let end2 : Option Int := end1.map (fun e => if e > (size : Int) - 1 then (size : Int) - 1 else e)
  match start1, end2 with
  | some s, some e => if s > e ∨ s < 0 then none else some { start := s, stop := e }
  | _, _ => none

/-- The function exported by the `range-parser` package (version 1.2), without options. -/
def rangeParserNpm (size : Nat) (str : String) : RangeResult :=
  match splitAtEq str.data with
  | none => RangeResult.code (-2)
  | some (type, rest) =>
    let ranges := (splitChar ',' rest).filterMap (parseRangeItem size)
    if ranges = [] then RangeResult.code (-1) else RangeResult.ranges (String.mk type) ranges

/-- A set of collaborators for concrete runs: the `range-parser` package, a `mime` lookup that
knows no extension, and a serialiser that is not exercised. -/
def sampleEnv : Env :=
  { rangeParser := rangeParserNpm
    mimeGetType := fun _ => none
    stringify := fun _ => "" }

/-- The options of a server created without options. -/
def noOpts : Opts := { index := none, type := none, filter := none, sort := none }

/-- An idle swarm. -/
def idleSwarm : Swarm :=
  { wires := [], downloaded := 0, uploaded := 0, downloadSpeed := 0, uploadSpeed := 0 }

/-- A request without headers. -/
def plainRequest (method pathname : String) : Request :=
  { method := method, pathname := pathname
    headers := { host := none, origin := none, accessControlRequestHeaders := none, range := none } }

/-- The same request without its `Range` header. -/
def Request.withoutRange (request : Request) : Request :=
  { request with headers := { request.headers with range := none } }

/-- The same request with the given `Range` header. -/
def Request.withRange (request : Request) (v : String) : Request :=
  { request with headers := { request.headers with range := some v } }

/-! ## The flow controller -/

/-- An event emitted by the engine: the two that the flow controller listens to, or any
other (`ready`, `verify`, ...). -/
inductive EngineEvent where
  | interested
  | uninterested
  | other (name : String)
  deriving DecidableEq

/-- A call on `engine.swarm`. -/
inductive SwarmCall where
  | pause
  | resume
  deriving DecidableEq

/-- The effect of one emitted event on the log of swarm calls.  `list` is the truth value
of `opts.list`: when it is set, `module.exports` returns before registering the two
listeners. -/
def emit (list : Bool) (calls : List SwarmCall) : EngineEvent → List SwarmCall
  | EngineEvent.uninterested => if list then calls else calls ++ [SwarmCall.pause]
  | EngineEvent.interested => if list then calls else calls ++ [SwarmCall.resume]
  | EngineEvent.other _ => calls

/-- The swarm calls issued while the engine emits the events, in order. -/
def swarmCalls (list : Bool) (events : List EngineEvent) : List SwarmCall :=
  events.foldl (emit list) []

/-- The call that answers an event, if any. -/
def callFor : EngineEvent → Option SwarmCall
  | EngineEvent.uninterested => some SwarmCall.pause
  | EngineEvent.interested => some SwarmCall.resume
  | EngineEvent.other _ => none

/-! ## The blocklist parser -/

/-- A range `{start, end}` of the blocklist. -/
structure BlocklistRange where
  start : String
  stop : String
  deriving DecidableEq

/-- The characters `LineTerminator` of ECMAScript, which `.` does not match. -/
def isLineTerminator (c : Char) : Bool :=
  c.toNat == 10 || c.toNat == 13 || c.toNat == 8232 || c.toNat == 8233

/-- The class `.` of a pattern without the `s` flag. -/
def isDot (c : Char) : Bool := !isLineTerminator c

/-- The class `[^#]`. -/
def isNotHash (c : Char) : Bool := c != '#'

/-- The class `[a-f0-9.:]`, by code points: `a`-`f`, `0`-`9`, `.` (46) and `:` (58). -/
def isAddrChar (c : Char) : Bool :=
  (97 ≤ c.toNat && c.toNat ≤ 102) || (48 ≤ c.toNat && c.toNat ≤ 57) || c.toNat == 46 ||
    c.toNat == 58

/-- The quantifiers the pattern uses: none, `*`, `*?` and `+?`. -/
inductive Quant where
  | one
  | star
  | starLazy
  | plusLazy

/-- A term of a pattern: a character class under a quantifier, capturing or not, or the
assertion `$`. -/
inductive Item where
  | atom (cls : Char → Bool) (q : Quant) (capture : Bool)
  | eol

/-- The matcher of `cls*` followed by the continuation `k`: it first tries to take one more
character, and falls back on the continuation.  `acc` is the text taken so far. -/
def greedyStar {ρ : Type} (cls : Char → Bool) (k : List Char → List Char → Option ρ) :
    List Char → List Char → Option ρ
  | acc, [] => k acc []
  | acc, c :: rest =>
    if cls c then
      match greedyStar cls k (acc ++ [c]) rest with
      | some r => some r
      | none => k acc (c :: rest)
    else k acc (c :: rest)

/-- The matcher of `cls*?` followed by the continuation `k`: it first tries the continuation,
and falls back on taking one more character. -/
def lazyStar {ρ : Type} (cls : Char → Bool) (k : List Char → List Char → Option ρ) :
    List Char → List Char → Option ρ
  | acc, [] => k acc []
  | acc, c :: rest =>
    match k acc (c :: rest) with
    | some r => some r
    | none => if cls c then lazyStar cls k (acc ++ [c]) rest else none

/-- The backtracking matcher of a pattern from the current position: the captures of the
first match in the order of priority, `none` when there is none.  `caps` holds the captures
made so far. -/
def matchItems : List Item → List (List Char) → List Char → Option (List (List Char))
  | [], caps, _ => some caps
  | Item.eol :: items, caps, input => if input = [] then matchItems items caps input else none
  | Item.atom cls q capture :: items, caps, input =>
    match q with
    | Quant.one =>
      match input with
      | c :: rest =>
        if cls c then matchItems items (if capture then caps ++ [[c]] else caps) rest else none
      | [] => none
    | Quant.star =>
      greedyStar cls
        (fun taken rest => matchItems items (if capture then caps ++ [taken] else caps) rest) [] input
    | Quant.starLazy =>
      lazyStar cls
        (fun taken rest => matchItems items (if capture then caps ++ [taken] else caps) rest) [] input
    | Quant.plusLazy =>
      match input with
      | c :: rest =>
        if cls c then
          lazyStar cls
            (fun taken rest => matchItems items (if capture then caps ++ [taken] else caps) rest)
            [c] rest
        else none
      | [] => none

/-- The pattern of `parseBlocklist` after its `^`:
`\s*[^#].*?\s*:\s*([a-f0-9.:]+?)\s*-\s*([a-f0-9.:]+?)\s*$`. -/
def blocklistPattern : List Item :=
  [Item.atom isStrWhiteSpace Quant.star false,
   Item.atom isNotHash Quant.one false,
   Item.atom isDot Quant.starLazy false,
   Item.atom isStrWhiteSpace Quant.star false,
   Item.atom (fun c => c == ':') Quant.one false,
   Item.atom isStrWhiteSpace Quant.star false,
   Item.atom isAddrChar Quant.plusLazy true,
   Item.atom isStrWhiteSpace Quant.star false,
   Item.atom (fun c => c == '-') Quant.one false,
   Item.atom isStrWhiteSpace Quant.star false,
   Item.atom isAddrChar Quant.plusLazy true,
   Item.atom isStrWhiteSpace Quant.star false,
   Item.eol]

/-- The end of the pattern, after the dash: `\s*([a-f0-9.:]+?)\s*$`. -/
def stopPattern : List Item :=
  [Item.atom isStrWhiteSpace Quant.star false,
   Item.atom isAddrChar Quant.plusLazy true,
   Item.atom isStrWhiteSpace Quant.star false,
   Item.eol]

/-- The part of the pattern after the colon: `\s*([a-f0-9.:]+?)\s*-` and the end. -/
def startPattern : List Item :=
  [Item.atom isStrWhiteSpace Quant.star false,
   Item.atom isAddrChar Quant.plusLazy true,
   Item.atom isStrWhiteSpace Quant.star false,
   Item.atom (fun c => c == '-') Quant.one false] ++ stopPattern

/-- The call `/^.../.exec(line)`: the pattern begins with `^` and has no flag, so it can only
match from the start of the line.  The result holds the two captures `match[1]`, `match[2]`. -/
def execLine (line : List Char) : Option (List (List Char)) :=
  matchItems blocklistPattern [] line

/-- The body of the loop over the lines: the range a line pushes, if it matches. -/
def lineRange (line : List Char) : Option BlocklistRange :=
  match execLine line with
  | some caps => some { start := String.mk (caps.getD 0 []), stop := String.mk (caps.getD 1 []) }
  | none => none

/-- The function `parseBlocklist`, applied to the text `blocklistData` read from the file. -/
def parseBlocklist (blocklistData : String) : List BlocklistRange :=
  (splitChar '\n' blocklistData.data).filterMap lineRange

/-- The text `lines.join('\n')`: the file whose lines are the given ones. -/
def joinLines : List (List Char) → List Char
  | [] => []
  | [l] => l
  | l :: l2 :: ls => l ++ '\n' :: joinLines (l2 :: ls)

/-- White space inside a line: characters of the class `\s` other than the line feed. -/
@[reducible] def AllWhite (l : List Char) : Prop :=
  ∀ c ∈ l, (isStrWhiteSpace c && c != '\n') = true

/-- The first character of a label: neither white space nor `#`. -/
def startsLabel : List Char → Bool
  | [] => false
  | c :: _ => !isStrWhiteSpace c && c != '#'

/-- A label: it begins with a character that is neither white space nor `#` and holds no `:`
and no line terminator. -/
@[reducible] def IsLabel (l : List Char) : Prop :=
  startsLabel l = true ∧ ∀ c ∈ l, (c != ':' && !isLineTerminator c) = true

/-- An address: a non-empty text over `[a-f0-9.:]`. -/
@[reducible] def IsAddress (l : List Char) : Prop :=
  l ≠ [] ∧ ∀ c ∈ l, isAddrChar c = true

/-- The line `<label>:<start>-<end>` with white space around the line, the colon and the
dash. -/
def blocklistLine (pre label ws1 ws2 start ws3 ws4 stop ws5 : List Char) : List Char :=
  pre ++ label ++ ws1 ++ ':' :: (ws2 ++ start ++ ws3 ++ '-' :: (ws4 ++ stop ++ ws5))

/-- A line has a colon-dash structure when some `:` is followed, later, by a `-`. -/
@[reducible] def HasColonDash (line : List Char) : Prop :=
  ∃ a b c : List Char, line = a ++ ':' :: (b ++ '-' :: c)

/-- A character that reads as a decimal digit. -/
@[reducible] def IsDigit (c : Char) : Prop := (decDigit? c).isSome = true

/-! ## Concrete collections for the runs -/

/-- A server that is ready, without options, over the given files, with `index` at `n`. -/
def readyServer (files : List FileEntry) (n : Nat) : Server :=
  { e := { files := files, selected := [], swarm := idleSwarm }
    opts := noOpts
    index := some (n : Int)
    serverIndex := files[n]? }

/-- A file whose name is the numeral `1`, at position 0. -/
def fileNamedOne : FileEntry := { ref := 0, name := "1", path := "1", length := 10 }

/-- A film, at position 1 of `numeralFiles`. -/
def filmB : FileEntry := { ref := 1, name := "b.mp4", path := "b.mp4", length := 20 }

/-- A collection whose first file is named like the index of the second. -/
def numeralFiles : List FileEntry := [fileNamedOne, filmB]

/-- A film, at position 0 of `films`. -/
def filmA : FileEntry := { ref := 0, name := "a.mp4", path := "a.mp4", length := 10 }

/-- Two films with ordinary names. -/
def films : List FileEntry := [filmA, filmB]

/-- The headers every file response carries after the CORS header, for a file whose media
type is unknown. -/
def streamHeaders : List (String × HeaderValue) :=
  [("Accept-Ranges", HeaderValue.str "bytes"), ("Content-Type", HeaderValue.null),
   ("transferMode.dlna.org", HeaderValue.str "Streaming"),
   ("contentFeatures.dlna.org",
     HeaderValue.str "DLNA.ORG_OP=01;DLNA.ORG_CI=0;DLNA.ORG_FLAGS=01700000000000000000000000000000")]

/-- The comparator that orders the longest file first. -/
def longestFirst (a b : FileEntry) : Int := (b.length : Int) - (a.length : Int)

/-- The options with only a sort comparator. -/
def sortOpts : Opts := { index := none, type := none, filter := none, sort := some longestFirst }

/-- The engine over the given files, nothing selected, idle swarm. -/
def engineOf (files : List FileEntry) : Engine :=
  { files := files, selected := [], swarm := idleSwarm }

/-- A file as long as `filmA`, listed after it. -/
def filmA2 : FileEntry := { ref := 1, name := "a2.mp4", path := "a2.mp4", length := 10 }

/-- The same request for another path. -/
def Request.withPath (request : Request) (pathname : String) : Request :=
  { request with pathname := pathname }

/-- A film inside a directory of the torrent: its `path` differs from its `name`. -/
def nestedFilm : FileEntry :=
  { ref := 0, name := "movie.mp4", path := "dir/movie.mp4", length := 10 }

/-- The options with only an inclusion predicate, which leaves out `a.mp4`. -/
def filterOpts : Opts :=
  { index := none, type := none, filter := some (fun f => decide (f.name ≠ "a.mp4")), sort := none }

/-- A ready server over the two films whose listings leave out `a.mp4`. -/
def filteredServer : Server :=
  { e := engineOf films, opts := filterOpts, index := some 1, serverIndex := some filmB }

/-- An `OPTIONS` request for `/0` from an origin, whose `Access-Control-Request-Headers`
header is present with an empty value. -/
def emptyPreflight : Request :=
  { method := "OPTIONS", pathname := "/0"
    headers := { host := none, origin := some "http://example.org",
                 accessControlRequestHeaders := some "", range := none } }

/-- An `OPTIONS` request for `/0` that asks for the header `X-Test` and carries no `Origin`
header. -/
def originlessPreflight : Request :=
  { method := "OPTIONS", pathname := "/0"
    headers := { host := none, origin := none,
                 accessControlRequestHeaders := some "X-Test", range := none } }

/-- An `OPTIONS` request for `/0` from an origin that asks for the header `X-Test`. -/
def testPreflight : Request :=
  { method := "OPTIONS", pathname := "/0"
    headers := { host := none, origin := some "http://example.org",
                 accessControlRequestHeaders := some "X-Test", range := none } }

/-! ## Lemmas on decimal numerals -/

theorem isDigit_digitChar (d : Nat) (h : d < 10) : IsDigit (digitChar d) := by
  interval_cases d <;> decide

theorem radixDigit_digitChar (d : Nat) (h : d < 10) : radixDigit? 10 (digitChar d) = some d := by
  interval_cases d <;> decide

theorem natDigits_isDigit (fuel n : Nat) : ∀ c ∈ natDigits fuel n, IsDigit c := by
  induction fuel generalizing n with
  | zero => intro c hc; simp [natDigits] at hc
  | succ fuel ih =>
    intro c hc
    unfold natDigits at hc
    split at hc
    · simp only [List.mem_singleton] at hc
      subst hc
      exact isDigit_digitChar n (by assumption)
    · rcases List.mem_append.mp hc with h | h
      · exact ih _ c h
      · simp only [List.mem_singleton] at h
        subst h
        exact isDigit_digitChar _ (Nat.mod_lt _ (by norm_num))

theorem natDigits_ne_nil (fuel n : Nat) : natDigits (fuel + 1) n ≠ [] := by
  unfold natDigits
  split <;> simp

theorem digitsValue_append (l : List Char) (c : Char) (acc : Nat) :
    digitsValue? 10 (l ++ [c]) acc =
      (digitsValue? 10 l acc).bind (fun v => (radixDigit? 10 c).map (fun d => v * 10 + d)) := by
  induction l generalizing acc with
  | nil =>
    simp only [List.nil_append, digitsValue?, Option.some_bind]
    cases radixDigit? 10 c <;> simp [digitsValue?]
  | cons a l ih =>
    simp only [List.cons_append, digitsValue?]
    cases radixDigit? 10 a with
    | none => simp
    | some d => simpa using ih _

theorem digitsValue_natDigits (fuel n : Nat) (h : n < fuel) :
    digitsValue? 10 (natDigits fuel n) 0 = some n := by
  induction fuel generalizing n with
  | zero => omega
  | succ fuel ih =>
    unfold natDigits
    split
    · rename_i hlt
      simp [digitsValue?, radixDigit_digitChar n hlt]
    · rename_i hge
      have h1 : n / 10 < fuel := by omega
      rw [digitsValue_append, ih _ h1, radixDigit_digitChar _ (Nat.mod_lt _ (by norm_num))]
      simp only [Option.some_bind, Option.map_some', Option.some.injEq]
      omega

theorem spanDigits_of_digits (cs : List Char) (h : ∀ c ∈ cs, IsDigit c) : spanDigits cs = (cs, []) := by
  induction cs with
  | nil => rfl
  | cons c cs ih =>
    have hc : (decDigit? c).isSome = true := h c (List.mem_cons_self _ _)
    have ih1 := ih (fun x hx => h x (List.mem_cons_of_mem _ hx))
    simp [spanDigits, hc, ih1]

theorem dropWhile_of_head {p : Char → Bool} (c : Char) (cs : List Char) (h : p c = false) :
    (c :: cs).dropWhile p = c :: cs := by
  simp [List.dropWhile, h]

theorem not_whiteSpace_of_digit (c : Char) (h : IsDigit c) : isStrWhiteSpace c = false := by
  unfold IsDigit decDigit? at h
  unfold isStrWhiteSpace
  split at h
  · rename_i hr
    simp only [Bool.or_eq_false_iff, Bool.and_eq_false_imp, decide_eq_true_eq, beq_eq_false_iff_ne,
      ne_eq, decide_eq_false_iff_not, not_le]
    omega
  · simp at h

theorem trimWhiteSpace_digits (cs : List Char) (h : ∀ c ∈ cs, IsDigit c) : trimWhiteSpace cs = cs := by
  have key : ∀ l : List Char, (∀ c ∈ l, IsDigit c) → l.dropWhile isStrWhiteSpace = l := by
    intro l hl
    cases l with
    | nil => rfl
    | cons c l => exact dropWhile_of_head c l (not_whiteSpace_of_digit c (hl c (List.mem_cons_self _ _)))
  unfold trimWhiteSpace
  rw [key cs h, key cs.reverse (fun c hc => h c (List.mem_reverse.mp hc)), List.reverse_reverse]

theorem strDecimalLiteral_digits (cs : List Char) (hne : cs ≠ []) (h : ∀ c ∈ cs, IsDigit c)
    (n : Nat) (hv : digitsValue? 10 cs 0 = some n) : strDecimalLiteral cs = JSNumber.fin n := by
  have hspan := spanDigits_of_digits cs h
  have hun : unsignedDecimal? cs = some (n : ℚ) := by
    simp [unsignedDecimal?, hspan, hne, hv, exponent?, scale10]
  have hinf : cs ≠ "Infinity".data := by
    intro he
    have := h 'I' (by rw [he]; decide)
    exact absurd this (by decide)
  unfold strDecimalLiteral
  split
  · exact absurd (h '+' (List.mem_cons_self _ _)) (by decide)
  · exact absurd (h '-' (List.mem_cons_self _ _)) (by decide)
  · simp [hinf, hun]

theorem toNumber_digits (cs : List Char) (hne : cs ≠ []) (h : ∀ c ∈ cs, IsDigit c)
    (n : Nat) (hv : digitsValue? 10 cs 0 = some n) : toNumber (String.mk cs) = JSNumber.fin n := by
  unfold toNumber
  rw [trimWhiteSpace_digits cs h]
  split
  · exact absurd rfl hne
  · exact absurd (h 'x' (by simp)) (by decide)
  · exact absurd (h 'X' (by simp)) (by decide)
  · exact absurd (h 'o' (by simp)) (by decide)
  · exact absurd (h 'O' (by simp)) (by decide)
  · exact absurd (h 'b' (by simp)) (by decide)
  · exact absurd (h 'B' (by simp)) (by decide)
  · exact strDecimalLiteral_digits cs hne h n hv

theorem toNumber_natToString (n : Nat) : toNumber (natToString n) = JSNumber.fin n :=
  toNumber_digits _ (natDigits_ne_nil n n) (natDigits_isDigit _ n) n
    (digitsValue_natDigits _ n (Nat.lt_succ_self n))

theorem slice1_slash (s : String) : slice1 ("/" ++ s) = s := by
  cases s; rfl

/-! ## Lemmas on routing -/

theorem natToString_data_ne_nil (n : Nat) : (natToString n).data ≠ [] :=
  natDigits_ne_nil n n

theorem natToString_isDigit (n : Nat) : ∀ c ∈ (natToString n).data, IsDigit c :=
  natDigits_isDigit _ n

theorem indexPath_ne_root (n : Nat) : "/" ++ natToString n ≠ "/" := by
  intro h
  have h1 := congrArg slice1 h
  rw [slice1_slash] at h1
  exact natToString_data_ne_nil n (by rw [h1]; rfl)

theorem indexPath_ne_of_nondigit (n : Nat) (t : String) (c : Char) (hc : c ∈ t.data)
    (hnd : ¬ IsDigit c) : "/" ++ natToString n ≠ "/" ++ t := by
  intro h
  have h1 := congrArg slice1 h
  rw [slice1_slash, slice1_slash] at h1
  exact hnd (natToString_isDigit n c (by rw [h1]; exact hc))

theorem nameRewrite_noop (files : List FileEntry) (i : Nat) (p : String)
    (h : ∀ f ∈ files, f.name ≠ slice1 p) : nameRewrite files i p = p := by
  induction files generalizing i with
  | nil => rfl
  | cons f fs ih =>
    have hf : ¬ slice1 p = f.name := fun he => h f (List.mem_cons_self _ _) he.symm
    simp only [nameRewrite, hf, if_false]
    exact ih _ (fun g hg => h g (List.mem_cons_of_mem _ hg))

theorem arrayGet_nat {α : Type} (xs : List α) (k : Nat) : arrayGet xs (JSNumber.fin k) = xs[k]? := by
  simp [arrayGet]

theorem geNat_nat (k n : Nat) : (JSNumber.fin k).geNat n = decide (n ≤ k) := by
  simp [JSNumber.geNat]

/-- A request for `/<i>` that is no preflight, in a collection where no file is named `<i>`,
reaches the file part of the handler with `e.files[i]`. -/
theorem handler_index_path (env : Env) (sv : Server) (request : Request) (i : Nat)
    (file : FileEntry) (hfile : sv.e.files[i]? = some file)
    (hnames : ∀ f ∈ sv.e.files, f.name ≠ natToString i)
    (hpre : ¬ (request.method = "OPTIONS" ∧
      truthyStr request.headers.accessControlRequestHeaders = true))
    (hpath : request.pathname = "/" ++ natToString i) :
    handler env sv request = serveFile env sv request (reflectOrigin request) (some file) := by
  have hlt : i < sv.e.files.length := by
    rcases Nat.lt_or_ge i sv.e.files.length with h | h
    · exact h
    · rw [List.getElem?_eq_none h] at hfile; cases hfile
  have hroot : rootRewrite sv request.pathname = "/" ++ natToString i := by
    simp [rootRewrite, hpath, indexPath_ne_root]
  have h1 : "/" ++ natToString i ≠ "/favicon.ico" :=
    indexPath_ne_of_nondigit i "favicon.ico" 'f' (by decide) (by decide)
  have h2 : "/" ++ natToString i ≠ "/.json" :=
    indexPath_ne_of_nondigit i ".json" '.' (by decide) (by decide)
  have h3 : "/" ++ natToString i ≠ "/.m3u" :=
    indexPath_ne_of_nondigit i ".m3u" '.' (by decide) (by decide)
  have hidx : fileIndex sv ("/" ++ natToString i) = JSNumber.fin i := by
    unfold fileIndex
    rw [nameRewrite_noop _ _ _ (by rw [slice1_slash]; exact hnames), slice1_slash,
      toNumber_natToString]
  unfold handler
  simp only [hpre, if_false, hroot, h1, h2, h3, hidx, JSNumber.isNaN, geNat_nat, arrayGet_nat,
    hfile]
  simp [Nat.not_le.mpr hlt]

/-! ## The `range-parser` package on a single range -/

theorem dropWhile_whiteSpace_digits (l : List Char) (hl : ∀ c ∈ l, IsDigit c) :
    l.dropWhile isStrWhiteSpace = l := by
  cases l with
  | nil => rfl
  | cons c l => exact dropWhile_of_head c l (not_whiteSpace_of_digit c (hl c (List.mem_cons_self _ _)))

theorem parseInt10_digits (cs : List Char) (hne : cs ≠ []) (h : ∀ c ∈ cs, IsDigit c) (n : Nat)
    (hv : digitsValue? 10 cs 0 = some n) : parseInt10 cs = some (n : Int) := by
  have hspan := spanDigits_of_digits cs h
  unfold parseInt10
  rw [dropWhile_whiteSpace_digits cs h]
  split
  · exact absurd (h '-' (List.mem_cons_self _ _)) (by decide)
  · exact absurd (h '+' (List.mem_cons_self _ _)) (by decide)
  · simp [hspan, hne, hv]

theorem splitChar_of_not_mem (sep : Char) (l : List Char) (h : ∀ c ∈ l, c ≠ sep) :
    splitChar sep l = [l] := by
  induction l with
  | nil => rfl
  | cons c cs ih =>
    have hc : ¬ c = sep := h c (List.mem_cons_self _ _)
    simp [splitChar, hc, ih (fun x hx => h x (List.mem_cons_of_mem _ hx))]

theorem splitChar_append_sep (sep : Char) (l r : List Char) (h : ∀ c ∈ l, c ≠ sep) :
    splitChar sep (l ++ sep :: r) = l :: splitChar sep r := by
  induction l with
  | nil => simp [splitChar]
  | cons c cs ih =>
    have hc : ¬ c = sep := h c (List.mem_cons_self _ _)
    simp [splitChar, hc, ih (fun x hx => h x (List.mem_cons_of_mem _ hx))]

theorem digit_ne_of_not_digit (sep : Char) (hsep : ¬ IsDigit sep) (l : List Char)
    (h : ∀ c ∈ l, IsDigit c) : ∀ c ∈ l, c ≠ sep := by
  intro c hc he
  exact hsep (he ▸ h c hc)

theorem parseInt10_natToString (n : Nat) : parseInt10 (natToString n).data = some (n : Int) :=
  parseInt10_digits _ (natDigits_ne_nil n n) (natDigits_isDigit _ n) n
    (digitsValue_natDigits _ n (Nat.lt_succ_self n))

theorem parseRangeItem_single (size s e : Nat) (hse : s ≤ e) (he : e < size) :
    parseRangeItem size ((natToString s).data ++ '-' :: (natToString e).data) =
      some { start := s, stop := e } := by
  have hs := digit_ne_of_not_digit '-' (by decide) _ (natToString_isDigit s)
  have hed := digit_ne_of_not_digit '-' (by decide) _ (natToString_isDigit e)
  have h1 : ¬ ((e : Int) > (size : Int) - 1) := by omega
  have h2 : ¬ ((s : Int) > (e : Int) ∨ (s : Int) < 0) := by omega
  unfold parseRangeItem
  rw [splitChar_append_sep '-' _ _ hs, splitChar_of_not_mem '-' _ hed]
  simp [parseInt10_natToString, h1, h2, hse]

/-- The `range-parser` package reads `bytes=s-e`, for `s ≤ e` inside a file of `size` bytes, as
the single range `{start: s, end: e}`. -/
theorem rangeParserNpm_single (size s e : Nat) (hse : s ≤ e) (he : e < size) :
    rangeParserNpm size ("bytes=" ++ natToString s ++ "-" ++ natToString e) =
      RangeResult.ranges "bytes" [{ start := s, stop := e }] := by
  have hdata : ("bytes=" ++ natToString s ++ "-" ++ natToString e).data =
      'b' :: 'y' :: 't' :: 'e' :: 's' :: '=' ::
        ((natToString s).data ++ '-' :: (natToString e).data) := by
    simp [String.data_append]
  have hcomma : ∀ c ∈ (natToString s).data ++ '-' :: (natToString e).data, c ≠ ',' := by
    intro c hc
    rcases List.mem_append.mp hc with h | h
    · exact digit_ne_of_not_digit ',' (by decide) _ (natToString_isDigit s) c h
    · rcases List.mem_cons.mp h with h | h
      · rw [h]; decide
      · exact digit_ne_of_not_digit ',' (by decide) _ (natToString_isDigit e) c h
  unfold rangeParserNpm
  rw [hdata]
  simp only [splitAtEq]
  simp [splitChar_of_not_mem ',' _ hcomma, parseRangeItem_single size s e hse he]

/-! ## C1, C2: file responses -/

theorem rangeHeader_ne_empty (a b : String) : "bytes=" ++ a ++ "-" ++ b ≠ "" := by
  intro h
  have := congrArg String.data h
  simp at this

theorem intToString_natCast (n : Nat) : intToString (n : Int) = natToString n := rfl

/-- C1 (as amended): for a file index `i` holding `file`, in a collection where no file is
named by the numeral `i`, and a byte range with `s ≤ e < length`, which the range parser reads
from `bytes=s-e` as `{start: s, end: e}`, `GET /<i>` with `Range: bytes=s-e` is answered with
status 206, `Content-Range: bytes s-e/length`, `Content-Length` `e - s + 1` and the read stream
of `file` bounded to `s..e`. -/
theorem range_request_served (env : Env) (sv : Server) (request : Request) (i s e : Nat)
    (file : FileEntry) (hfile : sv.e.files[i]? = some file)
    (hvalid : s ≤ e ∧ e < file.length)
    (hparser : ∀ size a b : Nat, a ≤ b → b < size →
      env.rangeParser size ("bytes=" ++ natToString a ++ "-" ++ natToString b) =
        RangeResult.ranges "bytes" [{ start := a, stop := b }])
    (hnames : ∀ f ∈ sv.e.files, f.name ≠ natToString i)
    (hmethod : request.method = "GET")
    (hpath : request.pathname = "/" ++ natToString i)
    (hrange : request.headers.range = some ("bytes=" ++ natToString s ++ "-" ++ natToString e)) :
    ∃ r, handler env sv request = Outcome.ended r ∧ r.statusCode = 206 ∧
      r.header "Content-Range" = some (HeaderValue.str
        ("bytes " ++ natToString s ++ "-" ++ natToString e ++ "/" ++ natToString file.length)) ∧
      r.header "Content-Length" = some (HeaderValue.num ((e : Int) - s + 1)) ∧
      r.body = Body.stream file (some { start := s, stop := e }) := by
  have hpre : ¬ (request.method = "OPTIONS" ∧
      truthyStr request.headers.accessControlRequestHeaders = true) := by
    rw [hmethod]; exact fun h => absurd h.1 (by decide)
  rw [handler_index_path env sv request i file hfile hnames hpre hpath]
  have hhead : ¬ request.method = "HEAD" := by rw [hmethod]; decide
  have hparse := hparser file.length s e hvalid.1 hvalid.2
  have htruthy : truthyStr (some ("bytes=" ++ natToString s ++ "-" ++ natToString e)) = true := by
    simp [truthyStr, rangeHeader_ne_empty]
  simp only [serveFile, hrange, htruthy, if_true, Option.getD_some, hparse, RangeResult.first,
    List.head?_cons, hhead, if_false, intToString_natCast]
  refine ⟨_, rfl, rfl, ?_, ?_, rfl⟩
  · unfold reflectOrigin
    split <;> simp [Response.header, Response.setHeader, Response.fresh, List.find?]
  · unfold reflectOrigin
    split <;> simp [Response.header, Response.setHeader, Response.fresh, List.find?]

/-- A run of `range_request_served`: `GET /1` with `Range: bytes=2-5` over two films. -/
theorem range_request_served_witness :
    ∃ r, handler sampleEnv (readyServer films 0)
        ((plainRequest "GET" ("/" ++ natToString 1)).withRange
          ("bytes=" ++ natToString 2 ++ "-" ++ natToString 5)) = Outcome.ended r ∧
      r.statusCode = 206 ∧
      r.header "Content-Range" = some (HeaderValue.str
        ("bytes " ++ natToString 2 ++ "-" ++ natToString 5 ++ "/" ++ natToString filmB.length)) ∧
      r.header "Content-Length" = some (HeaderValue.num ((5 : Nat) - (2 : Nat) + 1 : Int)) ∧
      r.body = Body.stream filmB (some { start := (2 : Nat), stop := (5 : Nat) }) :=
  range_request_served sampleEnv (readyServer films 0) _ 1 2 5 filmB (by decide) (by decide)
    rangeParserNpm_single (by decide) (by decide) (by decide) (by decide)

/-- C1 fails as stated: over a collection whose first file is named `1`, `GET /1` with
`Range: bytes=0-4` is answered from file 0 (`Content-Range: bytes 0-4/10`), not from file 1. -/
theorem range_request_counterexample :
    numeralFiles[1]? = some filmB ∧
    handler sampleEnv (readyServer numeralFiles 0)
        ((plainRequest "GET" "/1").withRange "bytes=0-4") =
      Outcome.ended
        { statusCode := 206
          headers := streamHeaders ++ [("Content-Length", HeaderValue.num 5),
            ("Content-Range", HeaderValue.str "bytes 0-4/10")]
          body := Body.stream fileNamedOne (some { start := 0, stop := 4 }) } ∧
    Body.stream fileNamedOne (some { start := 0, stop := 4 }) ≠
      Body.stream filmB (some { start := 0, stop := 4 }) := by
  decide

/-- C2 (as amended): for a file index `i` holding `file`, in a collection where no file is
named by the numeral `i`, `GET /<i>` without a `Range` header is answered with status 200,
`Content-Length` the length of `file` and the unbounded read stream of `file`. -/
theorem full_request_served (env : Env) (sv : Server) (request : Request) (i : Nat)
    (file : FileEntry) (hfile : sv.e.files[i]? = some file)
    (hnames : ∀ f ∈ sv.e.files, f.name ≠ natToString i)
    (hmethod : request.method = "GET")
    (hpath : request.pathname = "/" ++ natToString i)
    (hrange : request.headers.range = none) :
    ∃ r, handler env sv request = Outcome.ended r ∧ r.statusCode = 200 ∧
      r.header "Content-Length" = some (HeaderValue.num file.length) ∧
      r.body = Body.stream file none := by
  have hpre : ¬ (request.method = "OPTIONS" ∧
      truthyStr request.headers.accessControlRequestHeaders = true) := by
    rw [hmethod]; exact fun h => absurd h.1 (by decide)
  rw [handler_index_path env sv request i file hfile hnames hpre hpath]
  have hhead : ¬ request.method = "HEAD" := by rw [hmethod]; decide
  simp only [serveFile, hrange, truthyStr, hhead, if_false, Bool.false_eq_true]
  refine ⟨_, rfl, ?_, ?_, rfl⟩
  · unfold reflectOrigin
    split <;> rfl
  · unfold reflectOrigin
    split <;> simp [Response.header, Response.setHeader, Response.fresh, List.find?]

/-- A run of `full_request_served`: `GET /1` over two films. -/
theorem full_request_served_witness :
    ∃ r, handler sampleEnv (readyServer films 0) (plainRequest "GET" ("/" ++ natToString 1)) =
        Outcome.ended r ∧ r.statusCode = 200 ∧
      r.header "Content-Length" = some (HeaderValue.num filmB.length) ∧
      r.body = Body.stream filmB none :=
  full_request_served sampleEnv (readyServer films 0) _ 1 filmB (by decide) (by decide)
    (by decide) (by decide) (by decide)

/-- C2 fails as stated: over a collection whose first file is named `1`, `GET /1` without a
`Range` header streams file 0 with its length 10, not file 1 of length 20. -/
theorem full_request_counterexample :
    numeralFiles[1]? = some filmB ∧
    handler sampleEnv (readyServer numeralFiles 0) (plainRequest "GET" "/1") =
      Outcome.ended
        { statusCode := 200
          headers := streamHeaders ++ [("Content-Length", HeaderValue.num 10)]
          body := Body.stream fileNamedOne none } ∧
    Body.stream fileNamedOne none ≠ Body.stream filmB none ∧
    fileNamedOne.length ≠ filmB.length := by
  decide

/-! ## C3: paths that are no file index -/

/-- Where the guard of the handler does answer 404: a request that is no preflight, whose path
is no reserved endpoint, and whose index is `NaN` or at least the file count. -/
theorem not_found_of_nan_or_large (env : Env) (sv : Server) (request : Request)
    (hpre : ¬ (request.method = "OPTIONS" ∧
      truthyStr request.headers.accessControlRequestHeaders = true))
    (hreserved : rootRewrite sv request.pathname ≠ "/favicon.ico" ∧
      rootRewrite sv request.pathname ≠ "/.json" ∧ rootRewrite sv request.pathname ≠ "/.m3u")
    (hbad : (fileIndex sv (rootRewrite sv request.pathname)).isNaN = true ∨
      (fileIndex sv (rootRewrite sv request.pathname)).geNat sv.e.files.length = true) :
    handler env sv request =
      Outcome.ended { reflectOrigin request with statusCode := 404, body := Body.empty } := by
  unfold handler
  simp only [hpre, if_false, hreserved.1, hreserved.2.1, hreserved.2.2, hbad, if_true, notFound]

/-- C3, the code at the failing input: over two films, a `GET` whose path is a slash and
the numeral `-1` passes the guard
`isNaN(i) || i >= e.files.length` (`-1` is a number below the file count), `e.files[-1]` is
`undefined`, and the handler throws instead of answering 404. -/
theorem negative_index_throws :
    fileIndex (readyServer films 0) "/-1" = JSNumber.fin (-1) ∧
    handler sampleEnv (readyServer films 0) (plainRequest "GET" "/-1") =
      Outcome.threw JSError.typeError := by
  decide

/-! ## C4: the primary file and the root path after a sort -/

/-- C4, the code at the failing input: over `[a.mp4 (10 bytes), b.mp4 (20 bytes)]` with a
comparator that puts the longest file first, `onready` sets `index` to 1 and `server.index` to
`b.mp4`, then sorts the array to `[b.mp4, a.mp4]`; a request for the root path is rewritten to
the path of index 1 and streams `a.mp4`, not the primary file `b.mp4`. -/
theorem root_after_sort_serves_other_file :
    ∃ sv, onready (createServer (engineOf films) sortOpts) = Except.ok sv ∧
      sv.index = some 1 ∧ sv.serverIndex = some filmB ∧ sv.e.files = [filmB, filmA] ∧
      handler sampleEnv sv (plainRequest "GET" "/") =
        Outcome.ended
          { statusCode := 200
            headers := streamHeaders ++ [("Content-Length", HeaderValue.num 10)]
            body := Body.stream filmA none } :=
  ⟨_, rfl, by decide, by decide, by decide, by decide⟩

/-! ## C5: the default primary file -/

theorem foldl_longer_spec (x : FileEntry) (xs : List FileEntry) :
    ∃ k : Nat, (x :: xs)[k]? = some (xs.foldl longer x) ∧
      (∀ f ∈ x :: xs, f.length ≤ (xs.foldl longer x).length) ∧
      (∀ (j : Nat) (f : FileEntry), k < j → (x :: xs)[j]? = some f →
        f.length < (xs.foldl longer x).length) := by
  induction xs using List.reverseRecOn with
  | nil =>
    refine ⟨0, rfl, ?_, ?_⟩
    · intro f hf
      simp only [List.mem_singleton] at hf
      subst hf
      exact Nat.le_refl _
    · intro j f hj hf
      cases j with
      | zero => omega
      | succ j => simp at hf
  | append_singleton xs y ih =>
    obtain ⟨k, hk, hmax, hlater⟩ := ih
    have hklt : k < (x :: xs).length := by
      rcases Nat.lt_or_ge k (x :: xs).length with h | h
      · exact h
      · rw [List.getElem?_eq_none h] at hk; cases hk
    rw [List.foldl_append]
    simp only [List.foldl_cons, List.foldl_nil]
    rw [← List.cons_append]
    have hl : longer (xs.foldl longer x) y =
        if (xs.foldl longer x).length > y.length then xs.foldl longer x else y := rfl
    rw [hl]
    split
    · rename_i hgt
      refine ⟨k, ?_, ?_, ?_⟩
      · rw [List.getElem?_append_left hklt]; exact hk
      · intro f hf
        rcases List.mem_append.mp hf with h | h
        · exact hmax f h
        · simp only [List.mem_singleton] at h
          subst h
          omega
      · intro j f hj hf
        rcases Nat.lt_or_ge j (x :: xs).length with h | h
        · rw [List.getElem?_append_left h] at hf
          exact hlater j f hj hf
        · rw [List.getElem?_append_right h] at hf
          have : f = y := by
            cases hd : j - (x :: xs).length with
            | zero => rw [hd] at hf; simpa using hf.symm
            | succ m => rw [hd] at hf; simp at hf
          subst this
          omega
    · rename_i hle
      refine ⟨(x :: xs).length, ?_, ?_, ?_⟩
      · rw [List.getElem?_append_right (Nat.le_refl _)]; simp
      · intro f hf
        rcases List.mem_append.mp hf with h | h
        · have := hmax f h
          omega
        · simp only [List.mem_singleton] at h
          subst h
          exact Nat.le_refl _
      · intro j f hj hf
        have hlen : (x :: xs ++ [y]).length ≤ j := by
          simp only [List.length_append, List.length_cons, List.length_nil] at hj ⊢
          omega
        rw [List.getElem?_eq_none hlen] at hf
        cases hf

theorem indexOfRef_of_get (x : FileEntry) (l : List FileEntry) (i k : Nat)
    (hk : l[k]? = some x) (hnd : (l.map FileEntry.ref).Nodup) :
    indexOfRef x l i = ((i + k : Nat) : Int) := by
  induction l generalizing i k with
  | nil => simp at hk
  | cons f fs ih =>
    rw [List.map_cons, List.nodup_cons] at hnd
    cases k with
    | zero =>
      simp only [List.getElem?_cons_zero, Option.some.injEq] at hk
      simp [indexOfRef, hk]
    | succ k =>
      simp only [List.getElem?_cons_succ] at hk
      have hmem : x ∈ fs := List.getElem?_mem hk
      have hne : ¬ f.ref = x.ref := fun he => hnd.1 (he ▸ List.mem_map_of_mem _ hmem)
      simp only [indexOfRef, hne, if_false]
      rw [ih (i + 1) k hk hnd.2]
      congr 1
      omega

/-- C5 (as amended): when no explicit index is supplied and the file list is non-empty (its
file objects being distinct), `onready` succeeds and the primary file it resolves (`index` and
`server.index`) has maximum `length` among all files, and among several files of that maximum
length it is the one occurring last in enumeration order. -/
theorem primary_is_last_longest (sv : Server) (hidx : sv.index = none)
    (hne : sv.e.files ≠ []) (hrefs : (sv.e.files.map FileEntry.ref).Nodup) :
    ∃ (sv1 : Server) (k : Nat) (file : FileEntry), onready sv = Except.ok sv1 ∧
      sv1.index = some (k : Int) ∧ sv1.serverIndex = some file ∧ sv.e.files[k]? = some file ∧
      (∀ f ∈ sv.e.files, f.length ≤ file.length) ∧
      (∀ (j : Nat) (f : FileEntry), k < j → sv.e.files[j]? = some f →
        f.length < file.length) := by
  cases hfiles : sv.e.files with
  | nil => exact absurd hfiles hne
  | cons x xs =>
    obtain ⟨k, hk, hmax, hlater⟩ := foldl_longer_spec x xs
    have hio : indexOfRef (xs.foldl longer x) (x :: xs) 0 = (k : Int) := by
      have := indexOfRef_of_get _ (x :: xs) 0 k hk (by rw [← hfiles]; exact hrefs)
      simpa using this
    have hget : arrayGetInt (x :: xs) (k : Int) = some (xs.foldl longer x) := hk
    have hon : ∃ sv1 : Server, onready sv = Except.ok sv1 ∧ sv1.index = some (k : Int) ∧
        sv1.serverIndex = some (xs.foldl longer x) := by
      simp only [onready, hidx, hfiles, reduce1, hio, hget]
      exact ⟨_, rfl, rfl, rfl⟩
    obtain ⟨sv1, h1, h2, h3⟩ := hon
    exact ⟨sv1, k, xs.foldl longer x, h1, h2, h3, hk, hmax, hlater⟩

/-- A run of `primary_is_last_longest` over two films. -/
theorem primary_is_last_longest_witness :
    ∃ (sv1 : Server) (k : Nat) (file : FileEntry),
      onready (createServer (engineOf films) noOpts) = Except.ok sv1 ∧
      sv1.index = some (k : Int) ∧ sv1.serverIndex = some file ∧
      (createServer (engineOf films) noOpts).e.files[k]? = some file ∧
      (∀ f ∈ (createServer (engineOf films) noOpts).e.files, f.length ≤ file.length) ∧
      (∀ (j : Nat) (f : FileEntry), k < j →
        (createServer (engineOf films) noOpts).e.files[j]? = some f → f.length < file.length) :=
  primary_is_last_longest (createServer (engineOf films) noOpts) rfl (by decide) (by decide)

/-- C5 fails as stated: of two files of the same length 10, `onready` designates the second
(`index` 1), not the one occurring first. -/
theorem primary_tie_counterexample :
    ∃ sv, onready (createServer (engineOf [filmA, filmA2]) noOpts) = Except.ok sv ∧
      sv.index = some 1 ∧ sv.serverIndex = some filmA2 ∧
      filmA.length = filmA2.length ∧ [filmA, filmA2][0]? = some filmA ∧ filmA ≠ filmA2 :=
  ⟨_, rfl, by decide, by decide, by decide, by decide, by decide⟩

/-! ## C6: requests by file name -/

theorem nameRewrite_hit (files : List FileEntry) (i k : Nat) (file : FileEntry)
    (hfile : files[k]? = some file)
    (hfirst : ∀ (j : Nat) (f : FileEntry), j < k → files[j]? = some f → f.name ≠ file.name)
    (hnum : ∀ f ∈ files, f.name ≠ natToString (i + k)) :
    nameRewrite files i ("/" ++ file.name) = "/" ++ natToString (i + k) := by
  induction files generalizing i k with
  | nil => simp at hfile
  | cons f fs ih =>
    cases k with
    | zero =>
      simp only [List.getElem?_cons_zero, Option.some.injEq] at hfile
      subst hfile
      simp only [nameRewrite, slice1_slash, if_true, Nat.add_zero]
      apply nameRewrite_noop
      intro g hg
      rw [slice1_slash]
      exact hnum g (List.mem_cons_of_mem _ hg)
    | succ k =>
      simp only [List.getElem?_cons_succ] at hfile
      have hne : ¬ file.name = f.name := fun he =>
        hfirst 0 f (Nat.succ_pos k) (List.getElem?_cons_zero) he.symm
      simp only [nameRewrite, slice1_slash, hne, if_false]
      have := ih (i + 1) k hfile
        (fun j g hj hg => hfirst (j + 1) g (Nat.succ_lt_succ hj) (by simpa using hg))
        (fun g hg => by
          have := hnum g (List.mem_cons_of_mem _ hg)
          rwa [show i + (k + 1) = i + 1 + k by omega] at this)
      rw [this]
      congr 2
      omega

/-- C6 (as amended): for every request whose path, stripped of its leading `/`, equals the
`name` of a FileEntry (the path being neither the root nor a reserved endpoint), `k` being the
index of the first FileEntry of that name and no FileEntry being named by the numeral `k`, the
gateway serves the request exactly as it serves `/<k>`, and when the request is no preflight
the file it serves is that FileEntry. -/
theorem name_request_served (env : Env) (sv : Server) (request : Request) (k : Nat)
    (file : FileEntry) (hfile : sv.e.files[k]? = some file)
    (hfirst : ∀ (j : Nat) (f : FileEntry), j < k → sv.e.files[j]? = some f → f.name ≠ file.name)
    (hnum : ∀ f ∈ sv.e.files, f.name ≠ natToString k)
    (hpath : request.pathname = "/" ++ file.name)
    (hroot : request.pathname ≠ "/")
    (hreserved : request.pathname ≠ "/favicon.ico" ∧ request.pathname ≠ "/.json" ∧
      request.pathname ≠ "/.m3u") :
    handler env sv request = handler env sv (request.withPath ("/" ++ natToString k)) ∧
    (¬ (request.method = "OPTIONS" ∧
        truthyStr request.headers.accessControlRequestHeaders = true) →
      handler env sv request =
        serveFile env sv request (reflectOrigin request) (some file)) := by
  have hlt : k < sv.e.files.length := by
    rcases Nat.lt_or_ge k sv.e.files.length with h | h
    · exact h
    · rw [List.getElem?_eq_none h] at hfile; cases hfile
  have hserve : ¬ (request.method = "OPTIONS" ∧
        truthyStr request.headers.accessControlRequestHeaders = true) →
      handler env sv request =
        serveFile env sv request (reflectOrigin request) (some file) := by
    intro hpre
    have hidx : fileIndex sv ("/" ++ file.name) = JSNumber.fin k := by
      unfold fileIndex
      have := nameRewrite_hit sv.e.files 0 k file hfile hfirst (by simpa using hnum)
      rw [this, Nat.zero_add, slice1_slash, toNumber_natToString]
    have hr : rootRewrite sv request.pathname = "/" ++ file.name := by
      unfold rootRewrite
      rw [if_neg hroot, hpath]
    rw [hpath] at hreserved
    unfold handler
    simp only [hpre, if_false, hr, hreserved.1, hreserved.2.1, hreserved.2.2, hidx,
      JSNumber.isNaN, geNat_nat, arrayGet_nat, hfile]
    simp [Nat.not_le.mpr hlt]
  refine ⟨?_, hserve⟩
  by_cases hpre : request.method = "OPTIONS" ∧
      truthyStr request.headers.accessControlRequestHeaders = true
  · unfold handler
    simp only [Request.withPath, hpre, and_self, if_true]
    rfl
  · rw [hserve hpre]
    exact (handler_index_path env sv (request.withPath ("/" ++ natToString k)) k file hfile
      hnum hpre rfl).symm

/-- A run of `name_request_served`: `GET /b.mp4` over two films is served as `GET /1`. -/
theorem name_request_served_witness :
    handler sampleEnv (readyServer films 0) (plainRequest "GET" "/b.mp4") =
      handler sampleEnv (readyServer films 0)
        ((plainRequest "GET" "/b.mp4").withPath ("/" ++ natToString 1)) ∧
    (¬ ((plainRequest "GET" "/b.mp4").method = "OPTIONS" ∧
        truthyStr (plainRequest "GET" "/b.mp4").headers.accessControlRequestHeaders = true) →
      handler sampleEnv (readyServer films 0) (plainRequest "GET" "/b.mp4") =
        serveFile sampleEnv (readyServer films 0) (plainRequest "GET" "/b.mp4")
          (reflectOrigin (plainRequest "GET" "/b.mp4")) (some filmB)) :=
  name_request_served sampleEnv (readyServer films 0) (plainRequest "GET" "/b.mp4") 1 filmB
    (by decide) (by intro j f hj hf; interval_cases j; cases hf; decide) (by decide) (by decide)
    (by decide)
    (by decide)

/-- C6 fails as stated: for a file of `path` `dir/movie.mp4` and `name` `movie.mp4`, the
request for `/dir/movie.mp4` is answered 404 with an empty body, while the request for its
index `/0` streams the file. -/
theorem path_request_counterexample :
    nestedFilm.path = "dir/movie.mp4" ∧
    handler sampleEnv (readyServer [nestedFilm] 0) (plainRequest "GET" "/dir/movie.mp4") =
      Outcome.ended { statusCode := 404, headers := [], body := Body.empty } ∧
    handler sampleEnv (readyServer [nestedFilm] 0) (plainRequest "GET" "/0") =
      Outcome.ended
        { statusCode := 200
          headers := streamHeaders ++ [("Content-Length", HeaderValue.num 10)]
          body := Body.stream nestedFilm none } := by
  decide

/-! ## C7, C8: the listings -/

/-- C7, the code at the failing input: with an inclusion predicate that leaves out `a.mp4`
(index 0), `/.json` and `/.m3u` list `b.mp4` (index 1 of the engine's collection) under the URL
of index 0, and a request for that index streams `a.mp4`. -/
theorem listing_url_names_other_file :
    filteredServer.e.files[1]? = some filmB ∧
    (swarmStats filteredServer "localhost").files =
      [{ name := "b.mp4", url := "http://localhost/0", length := 20 }] ∧
    toPlaylist filteredServer "localhost" = "#EXTM3U\n#EXTINF:-1,b.mp4\nhttp://localhost/0" ∧
    handler sampleEnv filteredServer (plainRequest "GET" "/0") =
      Outcome.ended
        { statusCode := 200
          headers := streamHeaders ++ [("Content-Length", HeaderValue.num 10)]
          body := Body.stream filmA none } := by
  decide

theorem foldl_length_sum (files : List FileEntry) (acc : Nat) :
    files.foldl (fun prevFileLength currFile => prevFileLength + currFile.length) acc =
      acc + (files.map FileEntry.length).sum := by
  induction files generalizing acc with
  | nil => simp
  | cons f fs ih => simp [List.foldl_cons, ih, Nat.add_assoc]

/-- C8 (as amended): for every file list and every inclusion predicate, the `totalLength`
field of the `/.json` object equals the sum of the lengths of all FileEntries of the engine's
collection, whether or not they pass the inclusion predicate. -/
theorem totalLength_sums_all_files (sv : Server) (host : String) :
    (swarmStats sv host).totalLength = (sv.e.files.map FileEntry.length).sum := by
  simp [swarmStats, foldl_length_sum]

/-- C8 fails as stated: with an inclusion predicate that leaves out `a.mp4` (10 bytes), the
`/.json` object lists only `b.mp4` (20 bytes) and its `totalLength` is 30. -/
theorem totalLength_counterexample :
    (swarmStats filteredServer "localhost").totalLength = 30 ∧
    ((swarmStats filteredServer "localhost").files.map ListingEntry.length).sum = 20 ∧
    ((filteredServer.e.files.filter filteredServer.filter).map FileEntry.length).sum = 20 ∧
    (swarmStats filteredServer "localhost").totalLength ≠
      ((filteredServer.e.files.filter filteredServer.filter).map FileEntry.length).sum := by
  decide

/-! ## C9: the fallback for a range that does not parse -/

theorem arrayGet_some_valid {α : Type} (xs : List α) (i : JSNumber) (a : α)
    (h : arrayGet xs i = some a) : i.isNaN = false ∧ i.geNat xs.length = false := by
  cases i with
  | nan => simp [arrayGet] at h
  | posInf => simp [arrayGet] at h
  | negInf => simp [arrayGet] at h
  | fin q =>
    refine ⟨rfl, ?_⟩
    simp only [arrayGet] at h
    by_cases hq : q.den = 1 ∧ 0 ≤ q.num
    · rw [if_pos hq] at h
      have hlt : q.num.toNat < xs.length := by
        rcases Nat.lt_or_ge q.num.toNat xs.length with h1 | h1
        · exact h1
        · rw [List.getElem?_eq_none h1] at h; cases h
      have hq1 : ((q.num.toNat : Nat) : ℚ) = q := by
        have h2 : ((q.num.toNat : Nat) : Int) = q.num := Int.toNat_of_nonneg hq.2
        have h3 : ((q.num : Int) : ℚ) = q := Rat.coe_int_num_of_den_eq_one hq.1
        calc ((q.num.toNat : Nat) : ℚ) = (((q.num.toNat : Nat) : Int) : ℚ) := by push_cast; rfl
          _ = ((q.num : Int) : ℚ) := by rw [h2]
          _ = q := h3
      simp only [JSNumber.geNat, decide_eq_false_iff_not, not_le]
      rw [← hq1]
      exact_mod_cast hlt
    · rw [if_neg hq] at h
      cases h

theorem truthyStr_none : truthyStr none = false := rfl

/-- C9: for every request that reaches the file part of the handler with a valid index (the
entry `file` of the collection) and carries a `Range` header for which the range parser
reports unsatisfiable (`-1`) or malformed (`-2`), the handler throws nothing and its response
is the response to the same request without the `Range` header: status 200, `Content-Length`
the file length, and the whole unbounded stream (no body for `HEAD`). -/
theorem range_fallback (env : Env) (sv : Server) (request : Request) (v : String)
    (file : FileEntry)
    (hpre : ¬ (request.method = "OPTIONS" ∧
      truthyStr request.headers.accessControlRequestHeaders = true))
    (hreserved : rootRewrite sv request.pathname ≠ "/favicon.ico" ∧
      rootRewrite sv request.pathname ≠ "/.json" ∧ rootRewrite sv request.pathname ≠ "/.m3u")
    (hfile : arrayGet sv.e.files (fileIndex sv (rootRewrite sv request.pathname)) = some file)
    (hrange : request.headers.range = some v)
    (hparse : env.rangeParser file.length v = RangeResult.code (-1) ∨
      env.rangeParser file.length v = RangeResult.code (-2)) :
    handler env sv request = handler env sv request.withoutRange ∧
    ∃ r, handler env sv request = Outcome.ended r ∧ r.statusCode = 200 ∧
      r.header "Content-Length" = some (HeaderValue.num file.length) ∧
      r.body = (if request.method = "HEAD" then Body.empty else Body.stream file none) := by
  obtain ⟨hnan, hge⟩ := arrayGet_some_valid _ _ _ hfile
  have hfirst : (env.rangeParser file.length v).first = none := by
    rcases hparse with h | h <;> rw [h] <;> rfl
  have hrangeNone : (if truthyStr (some v) = true then
      (env.rangeParser file.length ((some v : Option String).getD "")).first else none) = none := by
    split
    · exact hfirst
    · rfl
  have hwith : handler env sv request =
      serveFile env sv request (reflectOrigin request) (some file) := by
    unfold handler
    simp only [hpre, if_false, hreserved.1, hreserved.2.1, hreserved.2.2, hnan, hge, hfile,
      Bool.false_eq_true, or_self]
  have hwithout : handler env sv request.withoutRange =
      serveFile env sv request.withoutRange (reflectOrigin request) (some file) := by
    have hpre2 : ¬ (request.withoutRange.method = "OPTIONS" ∧
        truthyStr request.withoutRange.headers.accessControlRequestHeaders = true) := hpre
    have hp : request.withoutRange.pathname = request.pathname := rfl
    have hro : reflectOrigin request.withoutRange = reflectOrigin request := rfl
    unfold handler
    simp only [hpre2, if_false, hp, hro, hreserved.1, hreserved.2.1, hreserved.2.2, hnan, hge,
      hfile, Bool.false_eq_true, or_self]
  have hsame : serveFile env sv request (reflectOrigin request) (some file) =
      serveFile env sv request.withoutRange (reflectOrigin request) (some file) := by
    simp only [serveFile, hrange, hrangeNone, Request.withoutRange, truthyStr_none,
      Bool.false_eq_true, if_false]
  refine ⟨by rw [hwith, hwithout, hsame], ?_⟩
  rw [hwith]
  simp only [serveFile, hrange, hrangeNone]
  by_cases hhead : request.method = "HEAD"
  · simp only [hhead, if_true]
    refine ⟨_, rfl, ?_, ?_, rfl⟩
    · unfold reflectOrigin
      split <;> rfl
    · unfold reflectOrigin
      split <;> simp [Response.header, Response.setHeader, Response.fresh, List.find?]
  · simp only [hhead, if_false]
    refine ⟨_, rfl, ?_, ?_, rfl⟩
    · unfold reflectOrigin
      split <;> rfl
    · unfold reflectOrigin
      split <;> simp [Response.header, Response.setHeader, Response.fresh, List.find?]

/-- A run of `range_fallback`: `GET /1` over two films with `Range: bytes=50-60`, which lies
beyond the 20 bytes of the file, so that `range-parser` returns `-1`. -/
theorem range_fallback_witness :
    handler sampleEnv (readyServer films 0) ((plainRequest "GET" "/1").withRange "bytes=50-60") =
      handler sampleEnv (readyServer films 0)
        ((plainRequest "GET" "/1").withRange "bytes=50-60").withoutRange ∧
    ∃ r, handler sampleEnv (readyServer films 0)
        ((plainRequest "GET" "/1").withRange "bytes=50-60") = Outcome.ended r ∧
      r.statusCode = 200 ∧
      r.header "Content-Length" = some (HeaderValue.num filmB.length) ∧
      r.body = (if ((plainRequest "GET" "/1").withRange "bytes=50-60").method = "HEAD"
        then Body.empty else Body.stream filmB none) :=
  range_fallback sampleEnv (readyServer films 0) ((plainRequest "GET" "/1").withRange "bytes=50-60")
    "bytes=50-60" filmB (by decide) (by decide) (by decide) (by decide) (by decide)

/-! ## C10: the CORS preflight -/

/-- Where the preflight is answered: for a request with method `OPTIONS` that carries a
non-empty `Access-Control-Request-Headers` header and an `Origin` header, whatever its path,
the response sets `Access-Control-Allow-Origin` to the origin, `Access-Control-Allow-Methods`
to `POST, GET, OPTIONS`, `Access-Control-Allow-Headers` to the requested list verbatim and
`Access-Control-Max-Age` to `1728000`, has an empty body, and nothing else happens: no file is
streamed and the state of the server is unchanged. -/
theorem preflight_answered (env : Env) (sv : Server) (request : Request)
    (requested origin : String)
    (hmethod : request.method = "OPTIONS")
    (hrequested : request.headers.accessControlRequestHeaders = some requested)
    (hne : requested ≠ "")
    (horigin : request.headers.origin = some origin) :
    onRequest env sv request =
      (sv, Outcome.ended
        { statusCode := 200
          headers :=
            [("Access-Control-Allow-Origin", HeaderValue.str origin),
             ("Access-Control-Allow-Methods", HeaderValue.str "POST, GET, OPTIONS"),
             ("Access-Control-Allow-Headers", HeaderValue.str requested),
             ("Access-Control-Max-Age", HeaderValue.str "1728000")]
          body := Body.empty }) := by
  have htruthy : truthyStr (some requested) = true := by simp [truthyStr, hne]
  simp [onRequest, handler, hmethod, hrequested, htruthy, preflight, horigin, Response.setHeader,
    Response.fresh]

/-- A run of `preflight_answered`: an `OPTIONS` request that asks for `X-Test`. -/
theorem preflight_answered_witness :
    onRequest sampleEnv (readyServer films 0) testPreflight =
      (readyServer films 0, Outcome.ended
        { statusCode := 200
          headers :=
            [("Access-Control-Allow-Origin", HeaderValue.str "http://example.org"),
             ("Access-Control-Allow-Methods", HeaderValue.str "POST, GET, OPTIONS"),
             ("Access-Control-Allow-Headers", HeaderValue.str "X-Test"),
             ("Access-Control-Max-Age", HeaderValue.str "1728000")]
          body := Body.empty }) :=
  preflight_answered sampleEnv (readyServer films 0) testPreflight "X-Test" "http://example.org"
    (by decide) (by decide) (by decide) (by decide)

/-- The guard of the preflight tests the truth value of the header: an `OPTIONS` request for
`/0` whose `Access-Control-Request-Headers` header is present but empty is not answered as a
preflight; it is routed, and file 0 is streamed. -/
theorem empty_preflight_routed :
    emptyPreflight.method = "OPTIONS" ∧
    emptyPreflight.headers.accessControlRequestHeaders = some "" ∧
    (onRequest sampleEnv (readyServer films 0) emptyPreflight).2 =
      Outcome.ended
        { statusCode := 200
          headers := [("Access-Control-Allow-Origin", HeaderValue.str "http://example.org")] ++
            streamHeaders ++ [("Content-Length", HeaderValue.num 10)]
          body := Body.stream filmA none } := by
  decide

/-- Without an `Origin` header the preflight throws, whatever the path and the requested
list: the first `setHeader` is handed `undefined`. -/
theorem preflight_throws_without_origin (env : Env) (sv : Server) (request : Request)
    (requested : String)
    (hmethod : request.method = "OPTIONS")
    (hrequested : request.headers.accessControlRequestHeaders = some requested)
    (hne : requested ≠ "")
    (horigin : request.headers.origin = none) :
    onRequest env sv request = (sv, Outcome.threw JSError.typeError) := by
  have htruthy : truthyStr (some requested) = true := by simp [truthyStr, hne]
  simp [onRequest, handler, hmethod, hrequested, htruthy, preflight, horigin]

/-- C10, the code at the failing input: an `OPTIONS` request that carries
`Access-Control-Request-Headers: X-Test` and no `Origin` header.  The handler takes the
preflight branch, hands the `undefined` origin to `setHeader` and throws, where the claim says
the response carries the four CORS headers and an empty body; the same request sent from an
origin is answered so, and the statement that follows the preflight sets the same header only
under `if (request.headers.origin)`. -/
theorem preflight_without_origin_throws :
    originlessPreflight.method = "OPTIONS" ∧
    originlessPreflight.headers.accessControlRequestHeaders = some "X-Test" ∧
    originlessPreflight.headers.origin = none ∧
    handler sampleEnv (readyServer films 0) originlessPreflight =
      Outcome.threw JSError.typeError ∧
    handler sampleEnv (readyServer films 0) testPreflight =
      Outcome.ended
        { statusCode := 200
          headers :=
            [("Access-Control-Allow-Origin", HeaderValue.str "http://example.org"),
             ("Access-Control-Allow-Methods", HeaderValue.str "POST, GET, OPTIONS"),
             ("Access-Control-Allow-Headers", HeaderValue.str "X-Test"),
             ("Access-Control-Max-Age", HeaderValue.str "1728000")]
          body := Body.empty } ∧
    reflectOrigin originlessPreflight = Response.fresh := by
  decide

/-! ## Lemmas on the matcher -/

theorem greedyStar_dropWhile {ρ : Type} (cls : Char → Bool)
    (k : List Char → List Char → Option ρ)
    (hrej : ∀ (a : List Char) (c : Char) (rest : List Char), cls c = true → k a (c :: rest) = none)
    (acc input : List Char) :
    greedyStar cls k acc input = k (acc ++ input.takeWhile cls) (input.dropWhile cls) := by
  induction input generalizing acc with
  | nil => simp [greedyStar]
  | cons c rest ih =>
    by_cases hc : cls c = true
    · simp only [greedyStar, hc, if_true, List.takeWhile_cons_of_pos, List.dropWhile_cons_of_pos]
      rw [ih (acc ++ [c]), hrej acc c rest hc]
      simp only [List.append_assoc, List.singleton_append]
      cases k (acc ++ c :: List.takeWhile cls rest) (List.dropWhile cls rest) <;> rfl
    · simp [greedyStar, hc]

theorem greedyStar_longest {ρ : Type} (cls : Char → Bool)
    (k : List Char → List Char → Option ρ) (acc input : List Char) (r : ρ)
    (h : k (acc ++ input.takeWhile cls) (input.dropWhile cls) = some r) :
    greedyStar cls k acc input = some r := by
  induction input generalizing acc with
  | nil => simpa [greedyStar] using h
  | cons c rest ih =>
    by_cases hc : cls c = true
    · simp only [List.takeWhile_cons_of_pos, List.dropWhile_cons_of_pos, hc] at h
      have := ih (acc ++ [c]) (by simpa using h)
      simp [greedyStar, hc, this]
    · simpa [greedyStar, hc] using h

theorem lazyStar_first {ρ : Type} (cls : Char → Bool)
    (k : List Char → List Char → Option ρ) (acc w rest : List Char) (r : ρ)
    (hw : ∀ c ∈ w, cls c = true)
    (hend : k (acc ++ w) rest = some r)
    (hearly : ∀ w1 w2 : List Char, w = w1 ++ w2 → w2 ≠ [] →
      k (acc ++ w1) (w2 ++ rest) = none ∨ k (acc ++ w1) (w2 ++ rest) = some r) :
    lazyStar cls k acc (w ++ rest) = some r := by
  induction w generalizing acc with
  | nil =>
    simp only [List.append_nil, List.nil_append] at hend ⊢
    cases rest with
    | nil => simpa [lazyStar] using hend
    | cons c rest => simp [lazyStar, hend]
  | cons c w ih =>
    have hc : cls c = true := hw c (List.mem_cons_self _ _)
    have h0 := hearly [] (c :: w) rfl (by simp)
    simp only [List.append_nil] at h0
    have hrec : lazyStar cls k (acc ++ [c]) (w ++ rest) = some r := by
      apply ih
      · exact fun x hx => hw x (List.mem_cons_of_mem _ hx)
      · simpa using hend
      · intro w1 w2 hsplit hne
        have := hearly (c :: w1) w2 (by rw [hsplit]; rfl) hne
        simpa using this
    have step : lazyStar cls k acc (c :: (w ++ rest)) =
        (match k acc (c :: (w ++ rest)) with
         | some r => some r
         | none => if cls c then lazyStar cls k (acc ++ [c]) (w ++ rest) else none) := rfl
    rw [List.cons_append, step]
    rcases h0 with h0 | h0
    · simp only [List.cons_append] at h0
      rw [h0]
      simp [hc, hrec]
    · simp only [List.cons_append] at h0
      rw [h0]

theorem greedyStar_some {ρ : Type} (cls : Char → Bool)
    (k : List Char → List Char → Option ρ) (acc input : List Char) (r : ρ)
    (h : greedyStar cls k acc input = some r) :
    ∃ a s : List Char, s <:+ input ∧ k a s = some r := by
  induction input generalizing acc with
  | nil => exact ⟨acc, [], List.suffix_refl _, by simpa [greedyStar] using h⟩
  | cons c rest ih =>
    by_cases hc : cls c = true
    · simp only [greedyStar, hc, if_true] at h
      cases hrec : greedyStar cls k (acc ++ [c]) rest with
      | some r2 =>
        rw [hrec] at h
        cases h
        obtain ⟨a, s, hs, hk⟩ := ih (acc ++ [c]) hrec
        exact ⟨a, s, List.IsSuffix.trans hs (List.suffix_cons _ _), hk⟩
      | none =>
        rw [hrec] at h
        exact ⟨acc, c :: rest, List.suffix_refl _, h⟩
    · simp only [greedyStar, hc] at h
      exact ⟨acc, c :: rest, List.suffix_refl _, by simpa using h⟩

theorem lazyStar_some {ρ : Type} (cls : Char → Bool)
    (k : List Char → List Char → Option ρ) (acc input : List Char) (r : ρ)
    (h : lazyStar cls k acc input = some r) :
    ∃ a s : List Char, s <:+ input ∧ k a s = some r := by
  induction input generalizing acc with
  | nil => exact ⟨acc, [], List.suffix_refl _, by simpa [lazyStar] using h⟩
  | cons c rest ih =>
    simp only [lazyStar] at h
    cases hk : k acc (c :: rest) with
    | some r2 =>
      rw [hk] at h
      exact ⟨acc, c :: rest, List.suffix_refl _, by rw [hk]; exact h⟩
    | none =>
      rw [hk] at h
      by_cases hc : cls c = true
      · simp only [hc, if_true] at h
        obtain ⟨a, s, hs, hk2⟩ := ih (acc ++ [c]) h
        exact ⟨a, s, List.IsSuffix.trans hs (List.suffix_cons _ _), hk2⟩
      · simp [hc] at h

theorem matchItems_wsStar (items : List Item) (caps : List (List Char)) (input : List Char)
    (hrej : ∀ (caps : List (List Char)) (c : Char) (rest : List Char),
      isStrWhiteSpace c = true → matchItems items caps (c :: rest) = none) :
    matchItems (Item.atom isStrWhiteSpace Quant.star false :: items) caps input =
      matchItems items caps (input.dropWhile isStrWhiteSpace) := by
  simp only [matchItems]
  rw [greedyStar_dropWhile isStrWhiteSpace _ (fun a c rest hc => hrej _ c rest hc)]
  simp

theorem matchItems_eol_cons (items : List Item) (caps : List (List Char)) (c : Char)
    (rest : List Char) : matchItems (Item.eol :: items) caps (c :: rest) = none := by
  simp [matchItems]

theorem matchItems_one_reject (cls : Char → Bool) (capture : Bool) (items : List Item)
    (caps : List (List Char)) (c : Char) (rest : List Char) (hc : cls c = false) :
    matchItems (Item.atom cls Quant.one capture :: items) caps (c :: rest) = none := by
  simp [matchItems, hc]

theorem matchItems_plusLazy_reject (cls : Char → Bool) (capture : Bool) (items : List Item)
    (caps : List (List Char)) (c : Char) (rest : List Char) (hc : cls c = false) :
    matchItems (Item.atom cls Quant.plusLazy capture :: items) caps (c :: rest) = none := by
  simp [matchItems, hc]

theorem dropWhile_append_of_all (p : Char → Bool) (w rest : List Char)
    (hw : ∀ c ∈ w, p c = true) : (w ++ rest).dropWhile p = rest.dropWhile p := by
  induction w with
  | nil => rfl
  | cons c w ih =>
    have hc : p c = true := hw c (List.mem_cons_self _ _)
    simp only [List.cons_append, List.dropWhile_cons_of_pos hc]
    exact ih (fun x hx => hw x (List.mem_cons_of_mem _ hx))

theorem dropWhile_all (p : Char → Bool) (w : List Char) (hw : ∀ c ∈ w, p c = true) :
    w.dropWhile p = [] := by
  have := dropWhile_append_of_all p w [] hw
  simpa using this

theorem addrChar_not_whiteSpace (c : Char) (h : isAddrChar c = true) :
    isStrWhiteSpace c = false := by
  unfold isAddrChar at h
  unfold isStrWhiteSpace
  simp only [Bool.or_eq_true, Bool.and_eq_true, decide_eq_true_eq, beq_iff_eq] at h
  simp only [Bool.or_eq_false_iff, Bool.and_eq_false_imp, decide_eq_true_eq, beq_eq_false_iff_ne,
    ne_eq, decide_eq_false_iff_not, not_le]
  omega

theorem addrChar_not_dash (c : Char) (h : isAddrChar c = true) : (c == '-') = false := by
  rw [beq_eq_false_iff_ne]
  intro he
  subst he
  exact absurd h (by decide)

/-- A capturing `cls+?` takes a whole run of the class when what follows the run is not in the
class and the rest of the pattern rejects every text that begins inside the class. -/
theorem matchItems_plusLazy_run (cls : Char → Bool) (items : List Item)
    (caps : List (List Char)) (w rest : List Char) (r : List (List Char))
    (hne : w ≠ []) (hw : ∀ c ∈ w, cls c = true)
    (hrej : ∀ (caps : List (List Char)) (c : Char) (rest : List Char),
      cls c = true → matchItems items caps (c :: rest) = none)
    (hend : matchItems items (caps ++ [w]) rest = some r) :
    matchItems (Item.atom cls Quant.plusLazy true :: items) caps (w ++ rest) = some r := by
  cases w with
  | nil => exact absurd rfl hne
  | cons c w =>
    have hc : cls c = true := hw c (List.mem_cons_self _ _)
    simp only [matchItems, List.cons_append, hc, if_true]
    apply lazyStar_first
    · exact fun x hx => hw x (List.mem_cons_of_mem _ hx)
    · simpa using hend
    · intro w1 w2 hsplit hne2
      left
      cases w2 with
      | nil => exact absurd rfl hne2
      | cons d w2 =>
        have hd : cls d = true := hw d (by rw [hsplit]; simp)
        exact hrej _ d _ hd

theorem matchItems_stopPattern (caps : List (List Char)) (ws4 stop ws5 : List Char)
    (h4 : ∀ c ∈ ws4, isStrWhiteSpace c = true) (h5 : ∀ c ∈ ws5, isStrWhiteSpace c = true)
    (hstop : IsAddress stop) :
    matchItems stopPattern caps (ws4 ++ stop ++ ws5) = some (caps ++ [stop]) := by
  obtain ⟨hne, haddr⟩ := hstop
  have htail : ∀ caps : List (List Char),
      matchItems [Item.atom isStrWhiteSpace Quant.star false, Item.eol] caps ws5 = some caps := by
    intro caps
    rw [matchItems_wsStar _ _ _ (fun caps c rest _ => matchItems_eol_cons _ caps c rest),
      dropWhile_all _ _ h5]
    simp [matchItems]
  have hrej : ∀ (caps : List (List Char)) (c : Char) (rest : List Char), isAddrChar c = true →
      matchItems [Item.atom isStrWhiteSpace Quant.star false, Item.eol] caps (c :: rest) = none := by
    intro caps c rest hc
    rw [matchItems_wsStar _ _ _ (fun caps c rest _ => matchItems_eol_cons _ caps c rest),
      List.dropWhile_cons_of_neg (by simp [addrChar_not_whiteSpace c hc])]
    exact matchItems_eol_cons _ _ _ _
  unfold stopPattern
  rw [matchItems_wsStar _ _ _ (fun caps c rest hc =>
      matchItems_plusLazy_reject _ _ _ caps c rest (by
        cases h : isAddrChar c
        · rfl
        · rw [addrChar_not_whiteSpace c h] at hc; cases hc)),
    List.append_assoc, dropWhile_append_of_all _ _ _ h4]
  cases stop with
  | nil => exact absurd rfl hne
  | cons d stop =>
    rw [List.cons_append, List.dropWhile_cons_of_neg
      (by simp [addrChar_not_whiteSpace d (haddr d (List.mem_cons_self _ _))]), ← List.cons_append]
    exact matchItems_plusLazy_run isAddrChar _ caps (d :: stop) ws5 _ (by simp) haddr hrej
      (htail _)

theorem whiteSpace_not_addrChar (c : Char) (hc : isStrWhiteSpace c = true) :
    isAddrChar c = false := by
  cases h : isAddrChar c
  · rfl
  · rw [addrChar_not_whiteSpace c h] at hc; cases hc

theorem matchItems_startPattern (caps : List (List Char))
    (ws2 start ws3 ws4 stop ws5 : List Char)
    (h2 : ∀ c ∈ ws2, isStrWhiteSpace c = true) (h3 : ∀ c ∈ ws3, isStrWhiteSpace c = true)
    (h4 : ∀ c ∈ ws4, isStrWhiteSpace c = true) (h5 : ∀ c ∈ ws5, isStrWhiteSpace c = true)
    (hstart : IsAddress start) (hstop : IsAddress stop) :
    matchItems startPattern caps (ws2 ++ start ++ ws3 ++ '-' :: (ws4 ++ stop ++ ws5)) =
      some (caps ++ [start] ++ [stop]) := by
  obtain ⟨hne, haddr⟩ := hstart
  have hdash : ∀ (caps : List (List Char)) (c : Char) (rest : List Char),
      isStrWhiteSpace c = true →
      matchItems (Item.atom (fun c => c == '-') Quant.one false :: stopPattern) caps (c :: rest) =
        none := by
    intro caps c rest hc
    apply matchItems_one_reject
    rw [beq_eq_false_iff_ne]
    intro he
    subst he
    exact absurd hc (by decide)
  have htail : ∀ caps : List (List Char),
      matchItems (Item.atom isStrWhiteSpace Quant.star false ::
        Item.atom (fun c => c == '-') Quant.one false :: stopPattern) caps
        (ws3 ++ '-' :: (ws4 ++ stop ++ ws5)) = some (caps ++ [stop]) := by
    intro caps
    rw [matchItems_wsStar _ _ _ hdash, dropWhile_append_of_all _ _ _ h3,
      List.dropWhile_cons_of_neg (by decide)]
    simp only [matchItems, beq_self_eq_true, if_true, Bool.false_eq_true, if_false]
    exact matchItems_stopPattern caps ws4 stop ws5 h4 h5 hstop
  have hrej : ∀ (caps : List (List Char)) (c : Char) (rest : List Char), isAddrChar c = true →
      matchItems (Item.atom isStrWhiteSpace Quant.star false ::
        Item.atom (fun c => c == '-') Quant.one false :: stopPattern) caps (c :: rest) = none := by
    intro caps c rest hc
    rw [matchItems_wsStar _ _ _ hdash,
      List.dropWhile_cons_of_neg (by simp [addrChar_not_whiteSpace c hc])]
    exact matchItems_one_reject _ _ _ _ _ _ (addrChar_not_dash c hc)
  unfold startPattern
  simp only [List.cons_append, List.nil_append]
  rw [matchItems_wsStar _ _ _ (fun caps c rest hc =>
      matchItems_plusLazy_reject _ _ _ caps c rest (whiteSpace_not_addrChar c hc)),
    List.append_assoc, List.append_assoc, dropWhile_append_of_all _ _ _ h2]
  cases start with
  | nil => exact absurd rfl hne
  | cons d start =>
    rw [List.cons_append, List.dropWhile_cons_of_neg
      (by simp [addrChar_not_whiteSpace d (haddr d (List.mem_cons_self _ _))]), ← List.cons_append]
    exact matchItems_plusLazy_run isAddrChar _ caps (d :: start) _ _ (by simp) haddr hrej
      (htail _)

theorem dropWhile_append_cases (p : Char → Bool) (l r : List Char) :
    (l ++ r).dropWhile p = r.dropWhile p ∨
      ∃ (d : Char) (t : List Char), d ∈ l ∧ p d = false ∧ (l ++ r).dropWhile p = d :: t := by
  induction l with
  | nil => left; rfl
  | cons c l ih =>
    by_cases hc : p c = true
    · rw [List.cons_append, List.dropWhile_cons_of_pos hc]
      rcases ih with h | ⟨d, t, hd, hpd, h⟩
      · left; exact h
      · right; exact ⟨d, t, List.mem_cons_of_mem _ hd, hpd, h⟩
    · right
      refine ⟨c, l ++ r, List.mem_cons_self _ _, by simpa using hc, ?_⟩
      rw [List.cons_append, List.dropWhile_cons_of_neg hc]

/-- The whole pattern on a line of the form `<label>:<start>-<end>`. -/
theorem execLine_blocklistLine (pre label ws1 ws2 start ws3 ws4 stop ws5 : List Char)
    (hpre : ∀ c ∈ pre, isStrWhiteSpace c = true) (h1 : ∀ c ∈ ws1, isStrWhiteSpace c = true)
    (h2 : ∀ c ∈ ws2, isStrWhiteSpace c = true) (h3 : ∀ c ∈ ws3, isStrWhiteSpace c = true)
    (h4 : ∀ c ∈ ws4, isStrWhiteSpace c = true) (h5 : ∀ c ∈ ws5, isStrWhiteSpace c = true)
    (hlabel : IsLabel label) (hstart : IsAddress start) (hstop : IsAddress stop) :
    execLine (blocklistLine pre label ws1 ws2 start ws3 ws4 stop ws5) = some [start, stop] := by
  obtain ⟨hfirst, hchars⟩ := hlabel
  cases label with
  | nil => simp [startsLabel] at hfirst
  | cons c0 mid =>
    simp only [startsLabel, Bool.and_eq_true, Bool.not_eq_true', bne_iff_ne, ne_eq] at hfirst
    have hcolon : ∀ (caps : List (List Char)) (c : Char) (rest : List Char),
        isStrWhiteSpace c = true →
        matchItems (Item.atom (fun c => c == ':') Quant.one false :: startPattern) caps
          (c :: rest) = none := by
      intro caps c rest hc
      apply matchItems_one_reject
      rw [beq_eq_false_iff_ne]
      intro he
      subst he
      exact absurd hc (by decide)
    have hafter : matchItems (Item.atom (fun c => c == ':') Quant.one false :: startPattern) []
        (':' :: (ws2 ++ start ++ ws3 ++ '-' :: (ws4 ++ stop ++ ws5))) = some [start, stop] := by
      simp only [matchItems, beq_self_eq_true, if_true, Bool.false_eq_true, if_false]
      exact matchItems_startPattern [] ws2 start ws3 ws4 stop ws5 h2 h3 h4 h5 hstart hstop
    have hk : ∀ s : List Char, (∀ c ∈ s, c ∈ mid) →
        matchItems (Item.atom isStrWhiteSpace Quant.star false ::
          Item.atom (fun c => c == ':') Quant.one false :: startPattern) []
          (s ++ (ws1 ++ ':' :: (ws2 ++ start ++ ws3 ++ '-' :: (ws4 ++ stop ++ ws5)))) = none ∨
        matchItems (Item.atom isStrWhiteSpace Quant.star false ::
          Item.atom (fun c => c == ':') Quant.one false :: startPattern) []
          (s ++ (ws1 ++ ':' :: (ws2 ++ start ++ ws3 ++ '-' :: (ws4 ++ stop ++ ws5)))) =
            some [start, stop] := by
      intro s hs
      rw [matchItems_wsStar _ _ _ hcolon]
      rcases dropWhile_append_cases isStrWhiteSpace s
          (ws1 ++ ':' :: (ws2 ++ start ++ ws3 ++ '-' :: (ws4 ++ stop ++ ws5))) with h | ⟨d, t, hd, _, h⟩
      · right
        rw [h, dropWhile_append_of_all _ _ _ h1, List.dropWhile_cons_of_neg (by decide)]
        exact hafter
      · left
        rw [h]
        apply matchItems_one_reject
        have := hchars d (List.mem_cons_of_mem _ (hs d hd))
        simp only [Bool.and_eq_true, bne_iff_ne, ne_eq] at this
        rw [beq_eq_false_iff_ne]
        exact this.1
    have hmid : ∀ c ∈ mid, isDot c = true := by
      intro c hc
      have := hchars c (List.mem_cons_of_mem _ hc)
      simp only [Bool.and_eq_true, Bool.not_eq_true'] at this
      simp [isDot, this.2]
    have hlazy : matchItems (Item.atom isDot Quant.starLazy false ::
          Item.atom isStrWhiteSpace Quant.star false ::
          Item.atom (fun c => c == ':') Quant.one false :: startPattern) []
          (mid ++ (ws1 ++ ':' :: (ws2 ++ start ++ ws3 ++ '-' :: (ws4 ++ stop ++ ws5)))) =
            some [start, stop] := by
      rw [matchItems]
      simp only [Bool.false_eq_true, if_false]
      apply lazyStar_first isDot _ [] mid _ _ hmid
      · rcases hk [] (by simp) with h | h
        · exfalso
          rw [List.nil_append, matchItems_wsStar _ _ _ hcolon, dropWhile_append_of_all _ _ _ h1,
            List.dropWhile_cons_of_neg (by decide), hafter] at h
          cases h
        · simpa using h
      · intro w1 w2 hsplit _
        exact hk w2 (fun c hc => by rw [hsplit]; exact List.mem_append_right _ hc)
    have hhead : matchItems (Item.atom isNotHash Quant.one false ::
          Item.atom isDot Quant.starLazy false ::
          Item.atom isStrWhiteSpace Quant.star false ::
          Item.atom (fun c => c == ':') Quant.one false :: startPattern) []
          (c0 :: (mid ++ (ws1 ++ ':' :: (ws2 ++ start ++ ws3 ++ '-' :: (ws4 ++ stop ++ ws5))))) =
            some [start, stop] := by
      rw [matchItems]
      have hnh : isNotHash c0 = true := by simp [isNotHash, hfirst.2]
      simp only [hnh, if_true, Bool.false_eq_true, if_false]
      exact hlazy
    have hline : blocklistLine pre (c0 :: mid) ws1 ws2 start ws3 ws4 stop ws5 =
        pre ++ (c0 :: (mid ++ (ws1 ++ ':' :: (ws2 ++ start ++ ws3 ++ '-' ::
          (ws4 ++ stop ++ ws5))))) := by
      simp [blocklistLine]
    have hpat : blocklistPattern = Item.atom isStrWhiteSpace Quant.star false ::
        Item.atom isNotHash Quant.one false ::
        Item.atom isDot Quant.starLazy false ::
        Item.atom isStrWhiteSpace Quant.star false ::
        Item.atom (fun c => c == ':') Quant.one false :: startPattern := rfl
    unfold execLine
    rw [hline, hpat, matchItems]
    simp only [Bool.false_eq_true, if_false]
    apply greedyStar_longest
    have htw : (pre ++ (c0 :: (mid ++ (ws1 ++ ':' :: (ws2 ++ start ++ ws3 ++ '-' ::
        (ws4 ++ stop ++ ws5)))))).dropWhile isStrWhiteSpace =
        c0 :: (mid ++ (ws1 ++ ':' :: (ws2 ++ start ++ ws3 ++ '-' :: (ws4 ++ stop ++ ws5)))) := by
      rw [dropWhile_append_of_all _ _ _ hpre, List.dropWhile_cons_of_neg (by simp [hfirst.1])]
    rw [htw]
    exact hhead

/-- A match of a pattern passes through each of its single-character terms: the term reads a
character of its class somewhere in the input, and the rest of the pattern matches what
follows. -/
theorem matchItems_one_inside (pre : List Item) (cls : Char → Bool) (capture : Bool)
    (post : List Item) (caps : List (List Char)) (input : List Char) (r : List (List Char))
    (h : matchItems (pre ++ Item.atom cls Quant.one capture :: post) caps input = some r) :
    ∃ (c : Char) (rest : List Char) (caps1 : List (List Char)),
      cls c = true ∧ (c :: rest) <:+ input ∧ matchItems post caps1 rest = some r := by
  induction pre generalizing caps input with
  | nil =>
    simp only [List.nil_append, matchItems] at h
    cases input with
    | nil => simp at h
    | cons c rest =>
      by_cases hc : cls c = true
      · simp only [hc, if_true] at h
        exact ⟨c, rest, _, hc, List.suffix_refl _, h⟩
      · simp [hc] at h
  | cons item pre ih =>
    cases item with
    | eol =>
      simp only [List.cons_append, matchItems] at h
      by_cases hin : input = []
      · simp only [hin, if_true] at h
        obtain ⟨c, rest, caps1, hc, hs, hm⟩ := ih _ _ h
        exact ⟨c, rest, caps1, hc, by rw [hin]; exact hs, hm⟩
      · simp [hin] at h
    | atom cls2 q cap2 =>
      cases q with
      | one =>
        simp only [List.cons_append, matchItems] at h
        cases input with
        | nil => simp at h
        | cons d rest =>
          by_cases hd : cls2 d = true
          · simp only [hd, if_true] at h
            obtain ⟨c, rest1, caps1, hc, hs, hm⟩ := ih _ _ h
            exact ⟨c, rest1, caps1, hc, List.IsSuffix.trans hs (List.suffix_cons _ _), hm⟩
          · simp [hd] at h
      | star =>
        simp only [List.cons_append, matchItems] at h
        obtain ⟨a, s, hs, hk⟩ := greedyStar_some _ _ _ _ _ h
        obtain ⟨c, rest1, caps1, hc, hs1, hm⟩ := ih _ _ hk
        exact ⟨c, rest1, caps1, hc, List.IsSuffix.trans hs1 hs, hm⟩
      | starLazy =>
        simp only [List.cons_append, matchItems] at h
        obtain ⟨a, s, hs, hk⟩ := lazyStar_some _ _ _ _ _ h
        obtain ⟨c, rest1, caps1, hc, hs1, hm⟩ := ih _ _ hk
        exact ⟨c, rest1, caps1, hc, List.IsSuffix.trans hs1 hs, hm⟩
      | plusLazy =>
        simp only [List.cons_append, matchItems] at h
        cases input with
        | nil => simp at h
        | cons d rest =>
          by_cases hd : cls2 d = true
          · simp only [hd, if_true] at h
            obtain ⟨a, s, hs, hk⟩ := lazyStar_some _ _ _ _ _ h
            obtain ⟨c, rest1, caps1, hc, hs1, hm⟩ := ih _ _ hk
            exact ⟨c, rest1, caps1, hc,
              List.IsSuffix.trans hs1 (List.IsSuffix.trans hs (List.suffix_cons _ _)), hm⟩
          · simp [hd] at h

/-- A line that matches the pattern has a `:` followed, later, by a `-`. -/
theorem hasColonDash_of_execLine (line : List Char) (r : List (List Char))
    (h : execLine line = some r) : HasColonDash line := by
  have hpat : blocklistPattern =
      [Item.atom isStrWhiteSpace Quant.star false, Item.atom isNotHash Quant.one false,
       Item.atom isDot Quant.starLazy false, Item.atom isStrWhiteSpace Quant.star false] ++
      Item.atom (fun c => c == ':') Quant.one false ::
        ([Item.atom isStrWhiteSpace Quant.star false, Item.atom isAddrChar Quant.plusLazy true,
          Item.atom isStrWhiteSpace Quant.star false] ++
        Item.atom (fun c => c == '-') Quant.one false :: stopPattern) := rfl
  unfold execLine at h
  rw [hpat] at h
  obtain ⟨c, rest, caps1, hc, ⟨a, ha⟩, hm⟩ := matchItems_one_inside _ _ _ _ _ _ _ h
  obtain ⟨d, rest2, caps2, hd, ⟨b, hb⟩, _⟩ := matchItems_one_inside _ _ _ _ _ _ _ hm
  have hc1 : c = ':' := by simpa using hc
  have hd1 : d = '-' := by simpa using hd
  subst hc1
  subst hd1
  exact ⟨a, b, rest2, by rw [← ha, ← hb]⟩

theorem lineRange_none_of_no_colonDash (line : List Char) (h : ¬ HasColonDash line) :
    lineRange line = none := by
  unfold lineRange
  cases he : execLine line with
  | none => rfl
  | some r => exact absurd (hasColonDash_of_execLine line r he) h

theorem lineRange_blocklistLine (pre label ws1 ws2 start ws3 ws4 stop ws5 : List Char)
    (hpre : AllWhite pre) (h1 : AllWhite ws1) (h2 : AllWhite ws2) (h3 : AllWhite ws3)
    (h4 : AllWhite ws4) (h5 : AllWhite ws5)
    (hlabel : IsLabel label) (hstart : IsAddress start) (hstop : IsAddress stop) :
    lineRange (blocklistLine pre label ws1 ws2 start ws3 ws4 stop ws5) =
      some { start := String.mk start, stop := String.mk stop } := by
  have hw : ∀ l : List Char, AllWhite l → ∀ c ∈ l, isStrWhiteSpace c = true := by
    intro l hl c hc
    have := hl c hc
    simp only [Bool.and_eq_true] at this
    exact this.1
  unfold lineRange
  rw [execLine_blocklistLine pre label ws1 ws2 start ws3 ws4 stop ws5 (hw _ hpre) (hw _ h1)
    (hw _ h2) (hw _ h3) (hw _ h4) (hw _ h5) hlabel hstart hstop]
  rfl

/-! ## Lemmas on the lines of a file -/

theorem splitChar_ne_nil (sep : Char) (l : List Char) : splitChar sep l ≠ [] := by
  cases l with
  | nil => simp [splitChar]
  | cons c cs =>
    unfold splitChar
    split
    · simp
    · split <;> simp

theorem splitChar_joinLines (lines : List (List Char)) (hne : lines ≠ [])
    (hnl : ∀ l ∈ lines, ∀ c ∈ l, c ≠ '\n') : splitChar '\n' (joinLines lines) = lines := by
  induction lines with
  | nil => exact absurd rfl hne
  | cons l ls ih =>
    cases ls with
    | nil => exact splitChar_of_not_mem '\n' l (hnl l (List.mem_cons_self _ _))
    | cons l2 ls =>
      rw [joinLines, splitChar_append_sep '\n' l _ (hnl l (List.mem_cons_self _ _)),
        ih (by simp) (fun x hx => hnl x (List.mem_cons_of_mem _ hx))]

theorem parseBlocklist_joinLines (lines : List (List Char))
    (hnl : ∀ l ∈ lines, ∀ c ∈ l, c ≠ '\n') :
    parseBlocklist (String.mk (joinLines lines)) = lines.filterMap lineRange := by
  cases lines with
  | nil => decide
  | cons l ls =>
    unfold parseBlocklist
    rw [splitChar_joinLines (l :: ls) (by simp) hnl]

/-! ## C11: the flow controller -/

theorem foldl_emit (events : List EngineEvent) (calls : List SwarmCall) :
    events.foldl (emit false) calls = calls ++ events.filterMap callFor := by
  induction events generalizing calls with
  | nil => simp
  | cons ev evs ih =>
    rw [List.foldl_cons, ih]
    cases ev <;> simp [emit, callFor]

theorem chain_filterMap_callFor (events : List EngineEvent)
    (honly : ∀ ev ∈ events, ev = EngineEvent.interested ∨ ev = EngineEvent.uninterested)
    (halt : events.Chain' (fun a b => a ≠ b)) :
    (events.filterMap callFor).Chain' (fun a b => a ≠ b) := by
  induction events with
  | nil => simp
  | cons ev evs ih =>
    have ih1 := ih (fun e he => honly e (List.mem_cons_of_mem _ he)) (List.Chain'.tail halt)
    cases evs with
    | nil => rcases honly ev (List.mem_cons_self _ _) with h | h <;> subst h <;> simp [callFor]
    | cons ev2 evs2 =>
      have hne : ev ≠ ev2 := (List.chain'_cons.mp halt).1
      rcases honly ev (List.mem_cons_self _ _) with h | h <;>
        rcases honly ev2 (List.mem_cons_of_mem _ (List.mem_cons_self _ _)) with h2 | h2 <;>
        subst h <;> subst h2
      · exact absurd rfl hne
      · simp only [List.filterMap_cons, callFor] at ih1 ⊢
        exact List.chain'_cons.mpr ⟨by decide, ih1⟩
      · simp only [List.filterMap_cons, callFor] at ih1 ⊢
        exact List.chain'_cons.mpr ⟨by decide, ih1⟩
      · exact absurd rfl hne

/-- C11 (as amended): for every sequence of events raised by the engine, the flow controller
issues exactly one swarm pause for each `uninterested` event and exactly one swarm resume for
each `interested` event, in event order, and nothing else; consequently, when the sequence
consists of `interested` and `uninterested` events of which no two consecutive ones are equal,
the call sequence contains no two consecutive pause calls and no two consecutive resume
calls. -/
theorem flow_controller_calls (events : List EngineEvent) :
    swarmCalls false events = events.filterMap callFor ∧
    ((∀ ev ∈ events, ev = EngineEvent.interested ∨ ev = EngineEvent.uninterested) →
      events.Chain' (fun a b => a ≠ b) →
      (swarmCalls false events).Chain' (fun a b => a ≠ b)) := by
  have h : swarmCalls false events = events.filterMap callFor := by
    simp [swarmCalls, foldl_emit]
  refine ⟨h, fun honly halt => ?_⟩
  rw [h]
  exact chain_filterMap_callFor events honly halt

/-- A run of `flow_controller_calls`: the engine becomes uninterested, interested and
uninterested again. -/
theorem flow_controller_calls_witness :
    swarmCalls false
        [EngineEvent.uninterested, EngineEvent.interested, EngineEvent.uninterested] =
      [SwarmCall.pause, SwarmCall.resume, SwarmCall.pause] ∧
    (swarmCalls false
        [EngineEvent.uninterested, EngineEvent.interested, EngineEvent.uninterested]).Chain'
      (fun a b => a ≠ b) :=
  ⟨(flow_controller_calls
      [EngineEvent.uninterested, EngineEvent.interested, EngineEvent.uninterested]).1,
   (flow_controller_calls
      [EngineEvent.uninterested, EngineEvent.interested, EngineEvent.uninterested]).2
      (by decide)
      (List.chain'_cons.mpr ⟨by decide, List.chain'_cons.mpr ⟨by decide, List.chain'_singleton _⟩⟩)⟩

/-- C11 fails as stated: for two `uninterested` events in a row the flow controller calls
`pause` twice in a row. -/
theorem repeated_pause_counterexample :
    swarmCalls false [EngineEvent.uninterested, EngineEvent.uninterested] =
      [SwarmCall.pause, SwarmCall.pause] ∧
    ¬ (swarmCalls false [EngineEvent.uninterested, EngineEvent.uninterested]).Chain'
      (fun a b => a ≠ b) := by
  refine ⟨by decide, fun h => ?_⟩
  have h2 : [SwarmCall.pause, SwarmCall.pause].Chain' (fun a b => a ≠ b) := h
  exact (List.chain'_cons.mp h2).1 rfl

/-! ## C12: well-formed lines of the blocklist -/

theorem blocklistLine_no_newline (pre label ws1 ws2 start ws3 ws4 stop ws5 : List Char)
    (hpre : AllWhite pre) (h1 : AllWhite ws1) (h2 : AllWhite ws2) (h3 : AllWhite ws3)
    (h4 : AllWhite ws4) (h5 : AllWhite ws5)
    (hlabel : IsLabel label) (hstart : IsAddress start) (hstop : IsAddress stop) :
    ∀ c ∈ blocklistLine pre label ws1 ws2 start ws3 ws4 stop ws5, c ≠ '\n' := by
  have hw : ∀ l : List Char, AllWhite l → ∀ c ∈ l, c ≠ '\n' := by
    intro l hl c hc
    have := hl c hc
    simp only [Bool.and_eq_true, bne_iff_ne, ne_eq] at this
    exact this.2
  have ha : ∀ l : List Char, IsAddress l → ∀ c ∈ l, c ≠ '\n' := by
    intro l hl c hc he
    subst he
    exact absurd (hl.2 _ hc) (by decide)
  have hl : ∀ c ∈ label, c ≠ '\n' := by
    intro c hc he
    subst he
    exact absurd (hlabel.2 _ hc) (by decide)
  intro c hc
  simp only [blocklistLine, List.mem_append, List.mem_cons] at hc
  rcases hc with ((hc | hc) | hc) | hc | ((hc | hc) | hc) | hc | (hc | hc) | hc
  · exact hw _ hpre c hc
  · exact hl c hc
  · exact hw _ h1 c hc
  · rw [hc]; decide
  · exact hw _ h2 c hc
  · exact ha _ hstart c hc
  · exact hw _ h3 c hc
  · rw [hc]; decide
  · exact hw _ h4 c hc
  · exact ha _ hstop c hc
  · exact hw _ h5 c hc

/-- C12 (as amended): in a file whose other lines are `before` and `after`, every line of the
form `<label>:<start>-<end>` with optional white space around the line, the colon and the dash,
where the label begins with a character that is neither white space nor `#` and contains no
`:` and no line terminator, and start and end are non-empty texts over `[a-f0-9.:]`, yields
exactly one range, whose `start` and `end` are the two address texts without the surrounding
white space; and a line in which no `:` is followed by a `-` yields no range. -/
theorem blocklist_line_parsed (before after : List (List Char))
    (pre label ws1 ws2 start ws3 ws4 stop ws5 other : List Char)
    (hctx : ∀ l ∈ before ++ after, ∀ c ∈ l, c ≠ '\n')
    (hpre : AllWhite pre) (h1 : AllWhite ws1) (h2 : AllWhite ws2) (h3 : AllWhite ws3)
    (h4 : AllWhite ws4) (h5 : AllWhite ws5)
    (hlabel : IsLabel label) (hstart : IsAddress start) (hstop : IsAddress stop)
    (hother : (∀ c ∈ other, c ≠ '\n') ∧ ¬ HasColonDash other) :
    parseBlocklist (String.mk (joinLines
        (before ++ [blocklistLine pre label ws1 ws2 start ws3 ws4 stop ws5] ++ after))) =
      before.filterMap lineRange ++
        [{ start := String.mk start, stop := String.mk stop }] ++ after.filterMap lineRange ∧
    parseBlocklist (String.mk (joinLines (before ++ [other] ++ after))) =
      before.filterMap lineRange ++ after.filterMap lineRange := by
  have hb : ∀ l ∈ before, ∀ c ∈ l, c ≠ '\n' := fun l hl => hctx l (List.mem_append_left _ hl)
  have ha : ∀ l ∈ after, ∀ c ∈ l, c ≠ '\n' := fun l hl => hctx l (List.mem_append_right _ hl)
  have hline := blocklistLine_no_newline pre label ws1 ws2 start ws3 ws4 stop ws5 hpre h1 h2 h3
    h4 h5 hlabel hstart hstop
  constructor
  · rw [parseBlocklist_joinLines]
    · simp [List.filterMap_append, lineRange_blocklistLine pre label ws1 ws2 start ws3 ws4 stop
        ws5 hpre h1 h2 h3 h4 h5 hlabel hstart hstop]
    · intro l hl
      simp only [List.mem_append, List.mem_singleton] at hl
      rcases hl with (hl | hl) | hl
      · exact hb l hl
      · rw [hl]; exact hline
      · exact ha l hl
  · rw [parseBlocklist_joinLines]
    · simp [List.filterMap_append, lineRange_none_of_no_colonDash other hother.2]
    · intro l hl
      simp only [List.mem_append, List.mem_singleton] at hl
      rcases hl with (hl | hl) | hl
      · exact hb l hl
      · rw [hl]; exact hother.1
      · exact ha l hl

/-- A run of `blocklist_line_parsed`: the file with the single line
`region: 1.2.3.4-1.2.3.9`, and the file with the single line `no structure here`. -/
theorem blocklist_line_parsed_witness :
    parseBlocklist "region: 1.2.3.4-1.2.3.9" = [{ start := "1.2.3.4", stop := "1.2.3.9" }] ∧
    parseBlocklist "no structure here" = [] :=
  blocklist_line_parsed [] [] [] "region".data [] " ".data "1.2.3.4".data [] [] "1.2.3.9".data []
    "no structure here".data (by decide) (by decide) (by decide) (by decide) (by decide)
    (by decide) (by decide) (by decide) (by decide) (by decide)
    ⟨by decide, by
      rintro ⟨a, b, c, h⟩
      have hm : ':' ∈ "no structure here".data := by rw [h]; simp
      exact absurd hm (by decide)⟩

/-- C12 fails as stated, on two lines of the stated form.  With the label ` ` (one space) and
the start `a:b`, the line ` :a:b-c` yields the start `b`, not `a:b`; with a label made of `a`,
a carriage return and `b`, the line yields no range. -/
theorem blocklist_line_counterexample :
    parseBlocklist " :a:b-c" = [{ start := "b", stop := "c" }] ∧
    ({ start := "b", stop := "c" } : BlocklistRange) ≠ { start := "a:b", stop := "c" } ∧
    " :a:b-c".data = blocklistLine [] " ".data [] [] "a:b".data [] [] "c".data [] ∧
    parseBlocklist "a\rb:1-2" = [] ∧
    "a\rb:1-2".data = blocklistLine [] "a\rb".data [] [] "1".data [] [] "2".data [] := by
  decide

/-! ## C13: blank lines and comment lines -/

theorem lineRange_hash (rest : List Char) : lineRange ('#' :: rest) = none := by
  have h : isStrWhiteSpace '#' = false := by decide
  simp [lineRange, execLine, blocklistPattern, matchItems, greedyStar, h, isNotHash]

theorem lineRange_blank (line : List Char) (h : ∀ c ∈ line, isStrWhiteSpace c = true) :
    lineRange line = none := by
  apply lineRange_none_of_no_colonDash
  rintro ⟨a, b, c, he⟩
  have hm : ':' ∈ line := by rw [he]; simp
  exact absurd (h _ hm) (by decide)

/-- Where the parser does skip a line: a blank line, and a line whose very first character is
`#`, contribute no range and leave the ranges of the other lines and their order unchanged. -/
theorem blank_or_hash_line_skipped (before after : List (List Char)) (line : List Char)
    (hctx : ∀ l ∈ before ++ after, ∀ c ∈ l, c ≠ '\n')
    (hnl : ∀ c ∈ line, c ≠ '\n')
    (hline : (∀ c ∈ line, isStrWhiteSpace c = true) ∨ ∃ rest, line = '#' :: rest) :
    parseBlocklist (String.mk (joinLines (before ++ [line] ++ after))) =
      parseBlocklist (String.mk (joinLines (before ++ after))) := by
  have hnone : lineRange line = none := by
    rcases hline with h | ⟨rest, h⟩
    · exact lineRange_blank line h
    · rw [h]; exact lineRange_hash rest
  rw [parseBlocklist_joinLines _ hctx, parseBlocklist_joinLines]
  · simp [List.filterMap_append, hnone]
  · intro l hl
    simp only [List.mem_append, List.mem_singleton] at hl
    rcases hl with (hl | hl) | hl
    · exact hctx l (List.mem_append_left _ hl)
    · rw [hl]; exact hnl
    · exact hctx l (List.mem_append_right _ hl)

/-- C13, the code at the failing input: a comment line whose `#` follows white space and whose
text has the shape `<label>:<start>-<end>` is not skipped.  The line ` #region:
1.2.3.4-1.2.3.9` alone yields a range, and between two other lines it adds a range to theirs;
the same line without the leading space yields none. -/
theorem indented_comment_not_skipped :
    parseBlocklist " #region: 1.2.3.4-1.2.3.9" = [{ start := "1.2.3.4", stop := "1.2.3.9" }] ∧
    parseBlocklist "a:1-2\n #c:3-4\nb:5-6" =
      [{ start := "1", stop := "2" }, { start := "3", stop := "4" },
       { start := "5", stop := "6" }] ∧
    parseBlocklist "a:1-2\nb:5-6" = [{ start := "1", stop := "2" }, { start := "5", stop := "6" }] ∧
    parseBlocklist "#region: 1.2.3.4-1.2.3.9" = [] := by
  decide

end Peerflix
